import Mathlib

/-!
Verification of the vector-based semantic cache of this repository
(`server/app/services/vector_cache.py` together with the Redis wrapper
`server/app/utils/redis_client.py`).

Modelling conventions for the shallow embedding:

* Machine floats are modelled as rationals (`ℚ`); `datetime` values are
  modelled as integer UTC timestamps in seconds, so `timedelta(days = d)`
  is `d * 86400`.
* The external collaborators that the code treats as black boxes — the
  OpenAI embedding endpoint (`openai.OpenAI(...).embeddings.create`),
  sklearn's `cosine_similarity`, and `hashlib.sha256(...).hexdigest` —
  are abstract function parameters collected in the `Env` structure,
  together with the configuration (`settings.similarity_threshold`,
  presence of `settings.openai_api_key`) and the current instant
  (`datetime.utcnow`).
* The Redis keyspace `vector:<analysis_type>:<language>:<content_hash>`
  is modelled structurally: a cache state is an association list from the
  key triple `(analysis_type, language, content_hash)` to the stored
  value, in Redis enumeration order (`KEYS` enumeration order is
  unspecified; the list order models one such order).  The glob pattern
  `vector:<t>:<l>:*` corresponds to filtering on the first two
  components, `vector:*` to the whole state.
* A stored value on which `json.loads` fails, or whose JSON payload is
  falsy, is `RVal.corrupt`; `RedisClient.get_json` returns `None` for it
  (the wrapper catches the exception), which is `none` here.  JSON fields
  that the Python code reads defensively (`created_at` through
  `datetime.fromisoformat`, `usage_count` via `.get(..., 0)`,
  `last_used_at`) are `Option`-valued, `none` modelling an absent or
  unparseable field.
* Python truthiness tests on lists (`if not embedding`) are modelled as
  emptiness tests, and `similarity_threshold or self.similarity_threshold`
  keeps the Python semantics that a caller-supplied `0.0` is falsy.
-/

/-- The `CacheEntry` record as serialized to Redis: the dataclass at the
top of `vector_cache.py`, equivalently the dict literal assembled in
`cache_analysis_result`.  The payload type of `analysis_results` is an
opaque parameter `α`. -/
structure CacheEntry (α : Type) where
  content_hash : String
  content_type : String
  embedding_vector : List ℚ
  analysis_results : α
  language : String
  similarity_threshold : ℚ
  created_at : Option ℤ
  usage_count : Option ℕ
  last_used_at : Option ℤ
  deriving DecidableEq, Repr

/-- A raw Redis value: either a JSON document that deserializes to a cache
entry, or a value on which deserialization fails (or which is falsy). -/
inductive RVal (α : Type) where
  | corrupt
  | entry (e : CacheEntry α)
  deriving DecidableEq, Repr

/-- Structured form of the cache key `vector:<analysis_type>:<language>:<content_hash>`. -/
abbrev CKey : Type := String × String × String

/-- The vector keyspace of the Redis database, in enumeration order. -/
abbrev CState (α : Type) : Type := List (CKey × RVal α)

/-- External collaborators and configuration of `VectorCache.__init__`:
whether `settings.openai_api_key` is set, the embedding endpoint, sklearn's
`cosine_similarity` (restricted to a pair of single-row matrices), the use
of `hashlib.sha256(...).hexdigest()`, `settings.similarity_threshold`, and
the current instant `datetime.utcnow()`. -/
structure Env where
  openai_configured : Bool
  embed_api : String → Option (List ℚ)
  cos_sim : List ℚ → List ℚ → ℚ
  sha256_hex : String → String
  similarity_threshold : ℚ
  now : ℤ

/-- `RedisClient.set_json` backed by redis `SET`: overwrite the value stored
at a key, creating the key when absent.  The write itself succeeds (the
wrapper returns `False` only when serialization or the connection fails,
which the model does not represent). -/
def set_json {α : Type} (s : CState α) (k : CKey) (v : RVal α) : CState α :=
  if s.any (fun kv => decide (kv.1 = k)) then
    s.map (fun kv => if kv.1 = k then (k, v) else kv)
  else
    s ++ [(k, v)]

/-- `RedisClient.get_json`: `GET` then `json.loads`; returns `none` on a
missing key and on a corrupt payload (the wrapper catches the exception). -/
def get_json {α : Type} (s : CState α) (k : CKey) : Option (CacheEntry α) :=
  match s.find? (fun kv => decide (kv.1 = k)) with
  | some (_, RVal.entry e) => some e
  | _ => none

/-- `RedisClient.delete`: idempotent removal of a key. -/
def redis_delete {α : Type} (s : CState α) (k : CKey) : CState α :=
  s.filter (fun kv => decide (¬ kv.1 = k))

/-- `redis_client.keys(get_cache_key("vector", analysis_type, language, "*"))`:
the entries of one partition, in enumeration order. -/
def partition_keys {α : Type} (s : CState α) (analysis_type language : String) :
    CState α :=
  s.filter (fun kv => decide (kv.1.1 = analysis_type ∧ kv.1.2.1 = language))

/-- The character-budget truncation in `VectorCache._get_embedding`. -/
def truncate_text (text : String) : String :=
  if 30000 < text.length then text.take 30000 ++ "..." else text

/-- `VectorCache._get_embedding`: `none` when no provider credential is
configured or when the external call fails (the `except` branch); otherwise
the provider's vector for the (possibly truncated) text. -/
def get_embedding (env : Env) (text : String) : Option (List ℚ) :=
  if env.openai_configured then env.embed_api (truncate_text text) else none

/-- `VectorCache._generate_content_hash`. -/
def generate_content_hash (env : Env) (content analysis_type : String) : String :=
  env.sha256_hex (content ++ ":" ++ analysis_type)

/-- `'\n'.join(...)` on accumulated lines. -/
def join_lines (ls : List String) : String :=
  String.intercalate "\n" ls

/-- Auxiliary for Python's substring test: does `hay` start with `needle`? -/
def chars_start : List Char → List Char → Bool
  | [], _ => true
  | _ :: _, [] => false
  | a :: as_, b :: bs => a == b && chars_start as_ bs

/-- Python's `needle in hay` substring containment on characters. -/
def chars_sub (needle : List Char) : List Char → Bool
  | [] => chars_start needle []
  | c :: rest => chars_start needle (c :: rest) || chars_sub needle rest

/-- The characters Python's `str.strip()` removes (the ASCII whitespace
set; exotic unicode space code points are not modelled). -/
def py_space (c : Char) : Bool :=
  c = ' ' || c = '\t' || c = '\n' || c = '\r' || c = '\x0b' || c = '\x0c'

/-- Python's `str.strip()`: drop whitespace from both ends. -/
def py_strip (s : String) : String :=
  String.mk (((s.data.dropWhile py_space).reverse.dropWhile py_space).reverse)

/-- Python's `str.startswith(pre)`. -/
def py_starts (s pre : String) : Bool :=
  chars_start pre.data s.data

/-- Python's `str.split('\n')` on the character list: splitting an empty
text yields one empty line. -/
def split_lines_chars : List Char → List (List Char)
  | [] => [[]]
  | c :: rest =>
    if c = '\n' then [] :: split_lines_chars rest
    else
      match split_lines_chars rest with
      | [] => [[c]]
      | l :: ls => (c :: l) :: ls

/-- Python's `content.split('\n')`. -/
def py_split_lines (s : String) : List String :=
  (split_lines_chars s.data).map String.mk

/-- Loop state of `VectorCache._extract_code_chunks`. -/
structure ChunkState where
  chunks : List (String × String)
  current_function : List String
  current_class : List String
  in_function : Bool
  in_class : Bool
  deriving DecidableEq, Repr

/-- One iteration of the line loop of `_extract_code_chunks`, with the
`elif` cascade of the Python code kept intact. -/
def chunk_step (language : String) (st : ChunkState) (line : String) : ChunkState :=
  let stripped := py_strip line
  if language = "python" then
    if py_starts stripped "def " then
      { st with
        chunks := if st.current_function ≠ [] then
            st.chunks ++ [("function", join_lines st.current_function)]
          else st.chunks,
        current_function := [line], in_function := true }
    else if py_starts stripped "class " then
      { st with
        chunks := if st.current_class ≠ [] then
            st.chunks ++ [("class", join_lines st.current_class)]
          else st.chunks,
        current_class := [line], in_class := true }
    else if st.in_function ∧ (¬ py_starts line " " ∧ ¬ py_starts line "\t" ∧ stripped ≠ "") then
      { st with
        chunks := st.chunks ++ [("function", join_lines st.current_function)],
        current_function := [], in_function := false }
    else if st.in_class ∧ (¬ py_starts line " " ∧ ¬ py_starts line "\t" ∧ stripped ≠ "") then
      { st with
        chunks := st.chunks ++ [("class", join_lines st.current_class)],
        current_class := [], in_class := false }
    else if st.in_function then
      { st with current_function := st.current_function ++ [line] }
    else if st.in_class then
      { st with current_class := st.current_class ++ [line] }
    else st
  else if language = "javascript" ∨ language = "typescript" then
    if chars_sub ("function ".toList) stripped.toList || chars_sub ("=>".toList) stripped.toList then
      { st with
        chunks := if st.current_function ≠ [] then
            st.chunks ++ [("function", join_lines st.current_function)]
          else st.chunks,
        current_function := [line], in_function := true }
    else if py_starts stripped "class " then
      { st with
        chunks := if st.current_class ≠ [] then
            st.chunks ++ [("class", join_lines st.current_class)]
          else st.chunks,
        current_class := [line], in_class := true }
    else if st.in_function ∧ stripped = "\x7d" then
      { st with
        chunks := st.chunks ++ [("function", join_lines (st.current_function ++ [line]))],
        current_function := [], in_function := false }
    else if st.in_function then
      { st with current_function := st.current_function ++ [line] }
    else st
  else st

/-- `VectorCache._extract_code_chunks`: heuristic chunking; on no detected
chunk, exactly one `("file", content)` pair. -/
def extract_code_chunks (content language : String) : List (String × String) :=
  let lines := py_split_lines content
  let st := lines.foldl (chunk_step language) ⟨[], [], [], false, false⟩
  let with_fn := if st.current_function ≠ [] then
      st.chunks ++ [("function", join_lines st.current_function)]
    else st.chunks
  let with_cls := if st.current_class ≠ [] then
      with_fn ++ [("class", join_lines st.current_class)]
    else with_fn
  if with_cls = [] then [("file", content)] else with_cls

/-- One iteration of the candidate loop of `find_similar_analysis`
(lines 185-204): skip a corrupt entry, skip an entry without an embedding
vector, otherwise keep the candidate when its similarity strictly exceeds
both the threshold and the best similarity seen so far. -/
def scan_step {α : Type} (cos : List ℚ → List ℚ → ℚ) (q : List ℚ) (threshold : ℚ)
    (acc : Option (CKey × CacheEntry α) × ℚ) (kv : CKey × RVal α) :
    Option (CKey × CacheEntry α) × ℚ :=
  match kv.2 with
  | RVal.corrupt => acc
  | RVal.entry e =>
    if e.embedding_vector = [] then acc
    else
      let s := cos q e.embedding_vector
      if threshold < s ∧ acc.2 < s then (some (kv.1, e), s) else acc

/-- The candidate loop of `find_similar_analysis` over a partition. -/
def scan_aux {α : Type} (cos : List ℚ → List ℚ → ℚ) (q : List ℚ) (threshold : ℚ) :
    (Option (CKey × CacheEntry α) × ℚ) → CState α → Option (CKey × CacheEntry α) × ℚ
  | acc, [] => acc
  | acc, kv :: rest => scan_aux cos q threshold (scan_step cos q threshold acc kv) rest

/-- The best-match search of `find_similar_analysis`, starting from
`best_match = None`, `best_similarity = 0.0`. -/
def scan_best {α : Type} (cos : List ℚ → List ℚ → ℚ) (q : List ℚ) (threshold : ℚ)
    (part : CState α) : Option (CKey × CacheEntry α) × ℚ :=
  scan_aux cos q threshold (none, 0) part

/-- A scanned candidate that is neither corrupt nor embedding-free,
together with its similarity to the query. -/
abbrev VTriple (α : Type) := CKey × CacheEntry α × ℚ

/-- The candidate a scan iteration actually processes, if any. -/
def to_valid {α : Type} (cos : List ℚ → List ℚ → ℚ) (q : List ℚ)
    (kv : CKey × RVal α) : Option (VTriple α) :=
  match kv.2 with
  | RVal.corrupt => none
  | RVal.entry e =>
    if e.embedding_vector = [] then none
    else some (kv.1, e, cos q e.embedding_vector)

/-- The processed candidates of a partition, in enumeration order. -/
def valid_pairs {α : Type} (cos : List ℚ → List ℚ → ℚ) (q : List ℚ)
    (part : CState α) : List (VTriple α) :=
  part.filterMap (to_valid cos q)

/-- `scan_step` as seen on processed candidates. -/
def pick_step {α : Type} (threshold : ℚ) (acc : Option (CKey × CacheEntry α) × ℚ)
    (p : VTriple α) : Option (CKey × CacheEntry α) × ℚ :=
  if threshold < p.2.2 ∧ acc.2 < p.2.2 then (some (p.1, p.2.1), p.2.2) else acc

/-- `scan_aux` as seen on processed candidates. -/
def pick_aux {α : Type} (threshold : ℚ) :
    (Option (CKey × CacheEntry α) × ℚ) → List (VTriple α) →
    Option (CKey × CacheEntry α) × ℚ
  | acc, [] => acc
  | acc, p :: rest => pick_aux threshold (pick_step threshold acc p) rest

/-- `threshold = similarity_threshold or self.similarity_threshold`
(line 170): `None` and the falsy `0.0` both fall back to the default. -/
def resolve_threshold (arg : Option ℚ) (d : ℚ) : ℚ :=
  match arg with
  | none => d
  | some x => if x = 0 then d else x

/-- Body of `find_similar_analysis` once the threshold is resolved: embed
the content, scan the partition, and on a hit increment `usage_count`
(defaulting a missing field to `0`), refresh `last_used_at`, write the
updated entry back under the key derived from the entry's `content_hash`,
and return the stored `analysis_results` payload. -/
def find_similar_core {α : Type} (env : Env) (s : CState α)
    (content analysis_type language : String) (threshold : ℚ) :
    Option α × CState α :=
  match get_embedding env content with
  | none => (none, s)
  | some embedding =>
    if embedding = [] then (none, s)
    else
      match (scan_best env.cos_sim embedding threshold
          (partition_keys s analysis_type language)).1 with
      | none => (none, s)
      | some (_, e) =>
        let updated : CacheEntry α :=
          { e with usage_count := some (e.usage_count.getD 0 + 1),
                   last_used_at := some env.now }
        (some updated.analysis_results,
         set_json s (analysis_type, language, e.content_hash) (RVal.entry updated))

/-- `VectorCache.find_similar_analysis`.  Returns the cached payload (if a
sufficiently similar entry exists) together with the resulting store
state. -/
def find_similar_analysis {α : Type} (env : Env) (s : CState α)
    (content analysis_type language : String) (similarity_threshold : Option ℚ) :
    Option α × CState α :=
  if env.openai_configured then
    find_similar_core env s content analysis_type language
      (resolve_threshold similarity_threshold env.similarity_threshold)
  else (none, s)

/-- `VectorCache.cache_analysis_result`.  Returns whether the write
happened together with the resulting store state. -/
def cache_analysis_result {α : Type} (env : Env) (s : CState α)
    (content analysis_type language : String) (analysis_results : α)
    (content_type : String) : Bool × CState α :=
  if env.openai_configured then
    let content_hash := generate_content_hash env content analysis_type
    match get_embedding env content with
    | none => (false, s)
    | some embedding =>
      if embedding = [] then (false, s)
      else
        (true,
         set_json s (analysis_type, language, content_hash)
           (RVal.entry
             { content_hash := content_hash
               content_type := content_type
               embedding_vector := embedding
               analysis_results := analysis_results
               language := language
               similarity_threshold := env.similarity_threshold
               created_at := some env.now
               usage_count := some 1
               last_used_at := some env.now }))
  else (false, s)

/-- The analysis types `cache_file_analysis` caches (line 307). -/
def cacheable_types : List String :=
  ["style", "bug", "security", "performance"]

/-- The caller-side chunk filter of `cache_file_analysis` (line 316):
`len(chunk_content.strip()) > 50`. -/
def substantial (ch : String × String) : Bool :=
  decide (50 < (py_strip ch.2).length)

/-- The inner loop of `cache_file_analysis`: store every substantial chunk
under the same per-type payload, counting successful writes. -/
def chunk_store_fold {α : Type} (env : Env) (analysis_type language : String)
    (type_results : α) :
    (ℕ × CState α) → List (String × String) → ℕ × CState α
  | acc, [] => acc
  | acc, ch :: rest =>
    if substantial ch then
      let r := cache_analysis_result env acc.2 ch.2 analysis_type language
        type_results ch.1
      chunk_store_fold env analysis_type language type_results
        ((if r.1 then acc.1 + 1 else acc.1), r.2) rest
    else
      chunk_store_fold env analysis_type language type_results acc rest

/-- The outer loop of `cache_file_analysis` over
`analysis_results.items()`: for each of the four known analysis types,
store the whole-file entry and then every substantial chunk. -/
def type_store_fold {α : Type} (env : Env) (content language : String)
    (chunks : List (String × String)) :
    (ℕ × CState α) → List (String × α) → ℕ × CState α
  | acc, [] => acc
  | acc, tr :: rest =>
    if tr.1 ∈ cacheable_types then
      let r1 := cache_analysis_result env acc.2 content tr.1 language tr.2 "file"
      let acc1 : ℕ × CState α := ((if r1.1 then acc.1 + 1 else acc.1), r1.2)
      let acc2 := chunk_store_fold env tr.1 language tr.2 acc1 chunks
      type_store_fold env content language chunks acc2 rest
    else
      type_store_fold env content language chunks acc rest

/-- `VectorCache.cache_file_analysis`.  Returns the pair
`(cached_chunks, total_chunks)` together with the resulting store state;
`file_path` is used only for logging in the source. -/
def cache_file_analysis {α : Type} (env : Env) (s : CState α)
    (file_path content language : String) (analysis_results : List (String × α)) :
    (ℕ × ℕ) × CState α :=
  if env.openai_configured then
    let chunks := extract_code_chunks content language
    let r := type_store_fold env content language chunks (0, s) analysis_results
    ((r.1, chunks.length * analysis_results.length), r.2)
  else ((0, 0), s)

/-- One iteration of the sweep loop of `cleanup_old_entries`: a corrupt
entry and an entry whose `created_at` does not parse are skipped (the
`except Exception: continue`); an old entry is deleted and counted. -/
def cleanup_step {α : Type} (cutoff : ℤ) (acc : ℕ × CState α) (key : CKey) :
    ℕ × CState α :=
  match get_json acc.2 key with
  | none => acc
  | some e =>
    match e.created_at with
    | none => acc
    | some c => if c < cutoff then (acc.1 + 1, redis_delete acc.2 key) else acc

/-- `VectorCache.cleanup_old_entries`: sweep every key of the `vector:*`
keyspace, deleting entries older than `now - days_old` days; returns the
number removed together with the resulting store state. -/
def cleanup_old_entries {α : Type} (env : Env) (s : CState α) (days_old : ℤ) :
    ℕ × CState α :=
  let cutoff := env.now - days_old * 86400
  (s.map Prod.fst).foldl (cleanup_step cutoff) (0, s)

/-- Specification-side predicate: is a stored value an entry whose
`created_at` parses and lies strictly before the cutoff?  Used to state
what `cleanup_old_entries` removes. -/
def entry_old {α : Type} (cutoff : ℤ) (v : RVal α) : Bool :=
  match v with
  | RVal.corrupt => false
  | RVal.entry e =>
    match e.created_at with
    | none => false
    | some c => decide (c < cutoff)

/-- Specification-side predicate: is the first value stored under a key an
old entry in the sense of `entry_old`? -/
def key_old {α : Type} (cutoff : ℤ) (st : CState α) (k : CKey) : Bool :=
  match get_json st k with
  | none => false
  | some e =>
    match e.created_at with
    | none => false
    | some c => decide (c < cutoff)

/-- Specification-side weight: how many writes `cache_file_analysis`
attempts for one item of `analysis_results.items()`, given the number `qc`
of substantial chunks. -/
def type_weight {α : Type} (qc : ℕ) (p : String × α) : ℕ :=
  if p.1 ∈ cacheable_types then 1 + qc else 0

/-- An embedding provider that always returns a non-empty vector. -/
def total_embedder (env : Env) : Prop :=
  ∀ text : String, ∃ v : List ℚ, env.embed_api text = some v ∧ v ≠ []

/-! Concrete fixtures used to instantiate the theorems below on closed
inputs.  The rational constants are given in normalized form so that the
kernel can evaluate every comparison. -/

/-- The default `settings.similarity_threshold` value `0.85`. -/
def q85 : ℚ := ⟨17, 20, by decide, by decide⟩

/-- The rational `0.5`. -/
def q05 : ℚ := ⟨1, 2, by decide, by decide⟩

/-- The rational `-0.1`, a possible cosine similarity. -/
def qn01 : ℚ := ⟨-1, 10, by decide, by decide⟩

/-- The rational `-0.5`. -/
def qn05 : ℚ := ⟨-1, 2, by decide, by decide⟩

/-- A fully working environment: credential configured, an embedding
provider that always answers `[1]` (so that any two embedded texts have
cosine similarity `1`, which is what sklearn computes on two equal
vectors), the default threshold `0.85`. -/
def envW : Env := ⟨true, fun _ => some [1], fun _ _ => 1, fun h => h, q85, 0⟩

/-- An environment without `settings.openai_api_key`. -/
def envOff : Env := ⟨false, fun _ => none, fun _ _ => 0, fun h => h, q85, 0⟩

/-- Environment for the C1 counterexample: the provider embeds every text
as `[1, 0]`, and the store already holds an entry embedded as `[2, 0]`;
the cosine similarity of `[1, 0]` with either vector is exactly `1`, which
is what `cos_sim` returns on every pair the lookup evaluates. -/
def envC1 : Env := ⟨true, fun _ => some [1, 0], fun _ _ => 1, fun h => h, q85, 0⟩

/-- A pre-existing entry colinear with (hence cosine-identical to) the
query of the C1 counterexample, with payload `0`. -/
def s0C1 : CState ℕ :=
  [(("bug", "python", "old"),
    RVal.entry ⟨"old", "file", [2, 0], 0, "python", q85, some 0, some 1, none⟩)]

/-- Environment for the C2 counterexample: every similarity evaluates to
`-0.1` (a legitimate cosine value). -/
def envC2 : Env := ⟨true, fun _ => some [1], fun _ _ => qn01, fun h => h, q85, 0⟩

/-- Environment for the C9 counterexample: every similarity evaluates to
`0.5`. -/
def envC9 : Env := ⟨true, fun _ => some [1], fun _ _ => q05, fun h => h, q85, 0⟩

/-- A one-entry partition used by several concrete instances. -/
def sOne : CState ℕ :=
  [(("bug", "python", "h"),
    RVal.entry ⟨"h", "file", [1], 0, "python", q85, some 0, some 1, none⟩)]

/-- Environment for the cleanup fixtures: the current instant is day 100. -/
def envT : Env := ⟨true, fun _ => some [1], fun _ _ => 1, fun h => h, q85, 100 * 86400⟩

/-- A store with a stale entry (day 0), a corrupt value, a fresh entry
(day 95) and an entry whose `created_at` does not parse. -/
def sT : CState ℕ :=
  [(("bug", "python", "a"),
    RVal.entry ⟨"a", "file", [1], 0, "python", q85, some 0, some 1, none⟩),
   (("bug", "python", "b"), RVal.corrupt),
   (("style", "js", "c"),
    RVal.entry ⟨"c", "file", [1], 2, "js", q85, some (95 * 86400), some 1, none⟩),
   (("bug", "python", "d"),
    RVal.entry ⟨"d", "file", [1], 3, "python", q85, none, some 1, none⟩)]

/-! ### Lemmas about the key-value store -/

theorem bool_not_true {b : Bool} (h : ¬ b = true) : b = false := by
  cases b
  · rfl
  · exact absurd rfl h

theorem find?_of_any_map {α : Type} (k : CKey) (v : RVal α) :
    ∀ s : CState α, s.any (fun kv => decide (kv.1 = k)) = true →
      (s.map (fun kv => if kv.1 = k then (k, v) else kv)).find?
        (fun kv => decide (kv.1 = k)) = some (k, v) := by
  intro s
  induction s with
  | nil => intro h; simp at h
  | cons kv rest ih =>
    intro h
    by_cases hk : kv.1 = k
    · simp [List.find?, hk]
    · have h' : rest.any (fun kv => decide (kv.1 = k)) = true := by
        simpa [List.any_cons, hk] using h
      simpa [List.find?, hk] using ih h'

theorem find?_of_any_false {α : Type} (k : CKey) :
    ∀ s : CState α, s.any (fun kv => decide (kv.1 = k)) = false →
      s.find? (fun kv => decide (kv.1 = k)) = none := by
  intro s
  induction s with
  | nil => intro _; rfl
  | cons kv rest ih =>
    intro h
    rw [List.any_cons, Bool.or_eq_false_iff] at h
    have h1 : ¬ kv.1 = k := by simpa using h.1
    simp [List.find?, h1, ih h.2]

theorem set_json_find?_same {α : Type} (s : CState α) (k : CKey) (v : RVal α) :
    (set_json s k v).find? (fun kv => decide (kv.1 = k)) = some (k, v) := by
  unfold set_json
  by_cases h : s.any (fun kv => decide (kv.1 = k))
  · simpa [h] using find?_of_any_map k v s h
  · have h' : s.any (fun kv => decide (kv.1 = k)) = false := bool_not_true h
    rw [if_neg h, List.find?_append, find?_of_any_false k s h']
    simp [List.find?]

theorem get_json_set_json_entry {α : Type} (s : CState α) (k : CKey)
    (e : CacheEntry α) :
    get_json (set_json s k (RVal.entry e)) k = some e := by
  rw [get_json, set_json_find?_same]

theorem find?_map_replace_ne {α : Type} (k k' : CKey) (v : RVal α) (h : k' ≠ k) :
    ∀ s : CState α,
      (s.map (fun kv => if kv.1 = k then (k, v) else kv)).find?
          (fun kv => decide (kv.1 = k')) =
        s.find? (fun kv => decide (kv.1 = k')) := by
  intro s
  induction s with
  | nil => rfl
  | cons kv rest ih =>
    by_cases hk : kv.1 = k
    · have hne : ¬ (k = k') := fun hc => h hc.symm
      have hne2 : ¬ kv.1 = k' := by rw [hk]; exact hne
      simp [List.find?, hk, hne, hne2, ih]
    · by_cases hk' : kv.1 = k'
      · simp [List.find?, hk, hk', h]
      · simp [List.find?, hk, hk', ih]

theorem set_json_find?_ne {α : Type} (s : CState α) (k k' : CKey) (v : RVal α)
    (h : k' ≠ k) :
    (set_json s k v).find? (fun kv => decide (kv.1 = k')) =
      s.find? (fun kv => decide (kv.1 = k')) := by
  unfold set_json
  by_cases hany : s.any (fun kv => decide (kv.1 = k))
  · rw [if_pos hany]
    exact find?_map_replace_ne k k' v h s
  · rw [if_neg hany]
    rw [List.find?_append]
    cases hfind : s.find? (fun kv => decide (kv.1 = k')) with
    | some kv => simp
    | none =>
      have hne : ¬ (k = k') := fun hc => h hc.symm
      simp [List.find?, hne]

theorem get_json_set_json_ne {α : Type} (s : CState α) (k k' : CKey) (v : RVal α)
    (h : k' ≠ k) :
    get_json (set_json s k v) k' = get_json s k' := by
  rw [get_json, get_json, set_json_find?_ne s k k' v h]

theorem set_json_keys_nodup {α : Type} (s : CState α) (k : CKey) (v : RVal α)
    (h : (s.map Prod.fst).Nodup) :
    ((set_json s k v).map Prod.fst).Nodup := by
  unfold set_json
  by_cases hany : s.any (fun kv => decide (kv.1 = k))
  · rw [if_pos hany]
    have hmm : (s.map (fun kv => if kv.1 = k then (k, v) else kv)).map Prod.fst =
        s.map Prod.fst := by
      rw [List.map_map]
      apply List.map_congr_left
      intro kv _
      by_cases hk : kv.1 = k
      · simp [Function.comp, hk]
      · simp [Function.comp, hk]
    rw [hmm]; exact h
  · have h' : s.any (fun kv => decide (kv.1 = k)) = false := bool_not_true hany
    have hnotmem : k ∉ s.map Prod.fst := by
      intro hm
      rcases List.mem_map.mp hm with ⟨kv, hkv, hfst⟩
      have hta : s.any (fun kv => decide (kv.1 = k)) = true :=
        List.any_eq_true.mpr ⟨kv, hkv, by simp [hfst]⟩
      rw [hta] at h'
      cases h'
    rw [if_neg hany, List.map_append]
    simp only [List.map_cons, List.map_nil]
    rw [List.nodup_append]
    refine ⟨h, List.nodup_singleton k, ?_⟩
    intro a ha hb
    rw [List.mem_singleton] at hb
    subst hb
    exact hnotmem ha

theorem find?_filter_out_ne {α : Type} (k k' : CKey) (h : k' ≠ k) :
    ∀ s : CState α,
      (s.filter (fun kv => decide (¬ kv.1 = k))).find?
          (fun kv => decide (kv.1 = k')) =
        s.find? (fun kv => decide (kv.1 = k')) := by
  intro s
  induction s with
  | nil => rfl
  | cons kv rest ih =>
    by_cases hk : kv.1 = k
    · have hne : ¬ kv.1 = k' := by rw [hk]; exact fun hc => h hc.symm
      rw [List.filter_cons_of_neg (by simp [hk]), List.find?_cons_of_neg _ (by simp [hne]), ih]
    · by_cases hk' : kv.1 = k'
      · rw [List.filter_cons_of_pos (by simp [hk]),
          List.find?_cons_of_pos _ (by simp [hk']),
          List.find?_cons_of_pos _ (by simp [hk'])]
      · rw [List.filter_cons_of_pos (by simp [hk]),
          List.find?_cons_of_neg _ (by simp [hk']),
          List.find?_cons_of_neg _ (by simp [hk']), ih]

theorem get_json_redis_delete_ne {α : Type} (s : CState α) (k k' : CKey)
    (h : k' ≠ k) :
    get_json (redis_delete s k) k' = get_json s k' := by
  rw [get_json, get_json, redis_delete, find?_filter_out_ne k k' h s]

theorem get_json_of_nodup {α : Type} (s : CState α) (kv : CKey × RVal α)
    (h : (s.map Prod.fst).Nodup) (hm : kv ∈ s) :
    s.find? (fun x => decide (x.1 = kv.1)) = some kv := by
  induction s with
  | nil => cases hm
  | cons hd rest ih =>
    rcases List.mem_cons.mp hm with rfl | hm
    · simp [List.find?]
    · have hne : ¬ hd.1 = kv.1 := by
        intro hc
        have : kv.1 ∈ rest.map Prod.fst := List.mem_map.mpr ⟨kv, hm, rfl⟩
        rw [List.map_cons, List.nodup_cons] at h
        exact h.1 (hc ▸ this)
      have hrest : (rest.map Prod.fst).Nodup := by
        rw [List.map_cons, List.nodup_cons] at h; exact h.2
      simp [List.find?, hne, ih hrest hm]

/-! ### Lemmas about the similarity scan -/

theorem scan_aux_eq_pick_aux {α : Type} (cos : List ℚ → List ℚ → ℚ) (q : List ℚ)
    (th : ℚ) :
    ∀ (part : CState α) (acc : Option (CKey × CacheEntry α) × ℚ),
      scan_aux cos q th acc part = pick_aux th acc (valid_pairs cos q part) := by
  intro part
  induction part with
  | nil => intro acc; rfl
  | cons kv rest ih =>
    intro acc
    rw [show scan_aux cos q th acc (kv :: rest) =
        scan_aux cos q th (scan_step cos q th acc kv) rest from rfl, ih]
    cases hv : kv.2 with
    | corrupt =>
      have h1 : scan_step cos q th acc kv = acc := by simp [scan_step, hv]
      have h2 : to_valid cos q kv = none := by simp [to_valid, hv]
      rw [h1]
      unfold valid_pairs
      rw [List.filterMap_cons, h2]
    | entry e =>
      by_cases he : e.embedding_vector = []
      · have h1 : scan_step cos q th acc kv = acc := by simp [scan_step, hv, he]
        have h2 : to_valid cos q kv = none := by simp [to_valid, hv, he]
        rw [h1]
        unfold valid_pairs
        rw [List.filterMap_cons, h2]
      · have h2 : to_valid cos q kv = some (kv.1, e, cos q e.embedding_vector) := by
          simp [to_valid, hv, he]
        have h1 : scan_step cos q th acc kv =
            pick_step th acc (kv.1, e, cos q e.embedding_vector) := by
          simp [scan_step, pick_step, hv, he]
        rw [h1]
        unfold valid_pairs
        rw [List.filterMap_cons, h2]
        rfl

theorem scan_best_eq_pick {α : Type} (cos : List ℚ → List ℚ → ℚ) (q : List ℚ)
    (th : ℚ) (part : CState α) :
    scan_best cos q th part = pick_aux th (none, 0) (valid_pairs cos q part) :=
  scan_aux_eq_pick_aux cos q th part (none, 0)

theorem pick_aux_snd_le {α : Type} (th : ℚ) :
    ∀ (l : List (VTriple α)) (acc : Option (CKey × CacheEntry α) × ℚ),
      acc.2 ≤ (pick_aux th acc l).2 := by
  intro l
  induction l with
  | nil => intro acc; exact le_rfl
  | cons p rest ih =>
    intro acc
    have hstep : acc.2 ≤ (pick_step th acc p).2 := by
      unfold pick_step
      by_cases hc : th < p.2.2 ∧ acc.2 < p.2.2
      · rw [if_pos hc]; exact le_of_lt hc.2
      · rw [if_neg hc]
    exact le_trans hstep (ih (pick_step th acc p))

theorem pick_aux_frozen {α : Type} (th : ℚ) :
    ∀ (l : List (VTriple α)) (acc : Option (CKey × CacheEntry α) × ℚ),
      (∀ p ∈ l, ¬ (th < p.2.2 ∧ acc.2 < p.2.2)) → pick_aux th acc l = acc := by
  intro l
  induction l with
  | nil => intro acc _; rfl
  | cons p rest ih =>
    intro acc h
    have hstep : pick_step th acc p = acc := by
      unfold pick_step
      rw [if_neg (h p (List.mem_cons_self p rest))]
    rw [show pick_aux th acc (p :: rest) =
        pick_aux th (pick_step th acc p) rest from rfl, hstep]
    exact ih acc (fun p' hp' => h p' (List.mem_cons_of_mem p hp'))

theorem pick_aux_stuck {α : Type} (th : ℚ) :
    ∀ (l : List (VTriple α)) (acc : Option (CKey × CacheEntry α) × ℚ),
      (pick_aux th acc l).2 = acc.2 →
      ∀ p ∈ l, ¬ (th < p.2.2 ∧ acc.2 < p.2.2) := by
  intro l
  induction l with
  | nil => intro acc _ p hp; cases hp
  | cons p0 rest ih =>
    intro acc hfix p hp hcontra
    by_cases hc : th < p0.2.2 ∧ acc.2 < p0.2.2
    · have hstep : pick_step th acc p0 = (some (p0.1, p0.2.1), p0.2.2) := by
        unfold pick_step; rw [if_pos hc]
      have hmono := pick_aux_snd_le th rest (pick_step th acc p0)
      rw [hstep] at hmono
      have heq : (pick_aux th acc (p0 :: rest)).2 =
          (pick_aux th (pick_step th acc p0) rest).2 := rfl
      rw [heq, hstep] at hfix
      rw [hfix] at hmono
      exact absurd hc.2 (not_lt.mpr hmono)
    · have hstep : pick_step th acc p0 = acc := by
        unfold pick_step; rw [if_neg hc]
      have hfix' : (pick_aux th acc rest).2 = acc.2 := by
        have heq : pick_aux th acc (p0 :: rest) =
            pick_aux th (pick_step th acc p0) rest := rfl
        rw [heq, hstep] at hfix
        exact hfix
      rcases List.mem_cons.mp hp with rfl | hp'
      · exact hc hcontra
      · exact ih acc hfix' p hp' hcontra

theorem pick_aux_bound {α : Type} (th c : ℚ) :
    ∀ (l : List (VTriple α)) (acc : Option (CKey × CacheEntry α) × ℚ),
      (∀ p ∈ l, p.2.2 < c) → acc.2 < c → (pick_aux th acc l).2 < c := by
  intro l
  induction l with
  | nil => intro acc _ hacc; exact hacc
  | cons p0 rest ih =>
    intro acc hl hacc
    have hstep : (pick_step th acc p0).2 < c := by
      unfold pick_step
      by_cases hc : th < p0.2.2 ∧ acc.2 < p0.2.2
      · rw [if_pos hc]; exact hl p0 (List.mem_cons_self p0 rest)
      · rw [if_neg hc]; exact hacc
    exact ih (pick_step th acc p0) (fun p hp => hl p (List.mem_cons_of_mem p0 hp)) hstep

theorem pick_aux_win {α : Type} (th : ℚ) (p : VTriple α) :
    ∀ (l1 : List (VTriple α)) (l2 : List (VTriple α))
      (acc : Option (CKey × CacheEntry α) × ℚ),
      th < p.2.2 → acc.2 < p.2.2 →
      (∀ q' ∈ l1, q'.2.2 < p.2.2) → (∀ q' ∈ l2, q'.2.2 ≤ p.2.2) →
      pick_aux th acc (l1 ++ p :: l2) = (some (p.1, p.2.1), p.2.2) := by
  intro l1
  induction l1 with
  | nil =>
    intro l2 acc hth hacc _ hl2
    have hstep : pick_step th acc p = (some (p.1, p.2.1), p.2.2) := by
      unfold pick_step; rw [if_pos ⟨hth, hacc⟩]
    rw [show pick_aux th acc (([] : List (VTriple α)) ++ p :: l2) =
        pick_aux th (pick_step th acc p) l2 from rfl, hstep]
    apply pick_aux_frozen
    intro q' hq' hcon
    exact absurd hcon.2 (not_lt.mpr (hl2 q' hq'))
  | cons q0 rest ih =>
    intro l2 acc hth hacc hl1 hl2
    have hq0 : q0.2.2 < p.2.2 := hl1 q0 (List.mem_cons_self _ _)
    have hstep : (pick_step th acc q0).2 < p.2.2 := by
      unfold pick_step
      by_cases hc : th < q0.2.2 ∧ acc.2 < q0.2.2
      · rw [if_pos hc]; exact hq0
      · rw [if_neg hc]; exact hacc
    rw [show pick_aux th acc ((q0 :: rest) ++ p :: l2) =
        pick_aux th (pick_step th acc q0) (rest ++ p :: l2) from rfl]
    exact ih l2 (pick_step th acc q0) hth hstep
      (fun q' hq' => hl1 q' (List.mem_cons_of_mem _ hq')) hl2

theorem pick_aux_sound {α : Type} (th : ℚ) :
    ∀ (l : List (VTriple α)) (acc : Option (CKey × CacheEntry α) × ℚ),
      pick_aux th acc l = acc ∨
      ∃ (k : CKey) (e : CacheEntry α) (s : ℚ) (l1 l2 : List (VTriple α)),
        pick_aux th acc l = (some (k, e), s) ∧ l = l1 ++ (k, e, s) :: l2 ∧
        th < s ∧ acc.2 < s ∧ (∀ q' ∈ l1, q'.2.2 < s) ∧ (∀ q' ∈ l2, q'.2.2 ≤ s) := by
  intro l
  induction l with
  | nil => intro acc; exact Or.inl rfl
  | cons p0 rest ih =>
    intro acc
    by_cases hc : th < p0.2.2 ∧ acc.2 < p0.2.2
    · have hstep : pick_step th acc p0 = (some (p0.1, p0.2.1), p0.2.2) := by
        unfold pick_step; rw [if_pos hc]
      have heq : pick_aux th acc (p0 :: rest) =
          pick_aux th (some (p0.1, p0.2.1), p0.2.2) rest := by
        rw [show pick_aux th acc (p0 :: rest) =
            pick_aux th (pick_step th acc p0) rest from rfl, hstep]
      rcases ih (some (p0.1, p0.2.1), p0.2.2) with hfix |
        ⟨k, e, s, l1, l2, hres, hdec, hth', hacc', hl1, hl2⟩
      · refine Or.inr ⟨p0.1, p0.2.1, p0.2.2, [], rest, ?_, by simp, hc.1, hc.2,
          by simp, ?_⟩
        · rw [heq, hfix]
        · intro q' hq'
          have hstuck := pick_aux_stuck th rest (some (p0.1, p0.2.1), p0.2.2)
            (by rw [hfix]) q' hq'
          by_contra hgt
          push_neg at hgt
          exact hstuck ⟨lt_trans hc.1 hgt, hgt⟩
      · refine Or.inr ⟨k, e, s, p0 :: l1, l2, by rw [heq, hres],
          by rw [hdec]; rfl, hth', lt_trans hc.2 hacc', ?_, hl2⟩
        intro q' hq'
        rcases List.mem_cons.mp hq' with rfl | hq''
        · exact hacc'
        · exact hl1 q' hq''
    · have hstep : pick_step th acc p0 = acc := by
        unfold pick_step; rw [if_neg hc]
      have heq : pick_aux th acc (p0 :: rest) = pick_aux th acc rest := by
        rw [show pick_aux th acc (p0 :: rest) =
            pick_aux th (pick_step th acc p0) rest from rfl, hstep]
      rcases ih acc with hfix | ⟨k, e, s, l1, l2, hres, hdec, hth', hacc', hl1, hl2⟩
      · exact Or.inl (by rw [heq, hfix])
      · refine Or.inr ⟨k, e, s, p0 :: l1, l2, by rw [heq, hres],
          by rw [hdec]; rfl, hth', hacc', ?_, hl2⟩
        intro q' hq'
        rcases List.mem_cons.mp hq' with rfl | hq''
        · rcases not_and_or.mp hc with hth0 | hacc0
          · exact lt_of_le_of_lt (not_lt.mp hth0) hth'
          · exact lt_of_le_of_lt (not_lt.mp hacc0) hacc'
        · exact hl1 q' hq''

theorem first_max_decomp {α : Type} :
    ∀ (l : List (VTriple α)) (p : VTriple α), p ∈ l →
      (∀ q' ∈ l, q'.2.2 ≤ p.2.2) →
      ∃ (p1 : VTriple α) (l1 l2 : List (VTriple α)),
        l = l1 ++ p1 :: l2 ∧ p1.2.2 = p.2.2 ∧
        (∀ q' ∈ l1, q'.2.2 < p.2.2) ∧ (∀ q' ∈ l2, q'.2.2 ≤ p.2.2) := by
  intro l
  induction l with
  | nil => intro p hp; cases hp
  | cons q0 rest ih =>
    intro p hp hmax
    by_cases h0 : q0.2.2 = p.2.2
    · exact ⟨q0, [], rest, rfl, h0, by simp,
        fun q' hq' => hmax q' (List.mem_cons_of_mem _ hq')⟩
    · have hlt : q0.2.2 < p.2.2 :=
        lt_of_le_of_ne (hmax q0 (List.mem_cons_self _ _)) h0
      have hp' : p ∈ rest := by
        rcases List.mem_cons.mp hp with rfl | hp'
        · exact absurd rfl h0
        · exact hp'
      rcases ih p hp' (fun q' hq' => hmax q' (List.mem_cons_of_mem _ hq')) with
        ⟨p1, l1, l2, hdec, hsim, hl1, hl2⟩
      refine ⟨p1, q0 :: l1, l2, by rw [hdec]; rfl, hsim, ?_, hl2⟩
      intro q' hq'
      rcases List.mem_cons.mp hq' with rfl | hq''
      · exact hlt
      · exact hl1 q' hq''

theorem pick_best_winner {α : Type} (th : ℚ) (l : List (VTriple α)) (p0 : VTriple α)
    (hmem : p0 ∈ l) (hth : th < p0.2.2) (hpos : 0 < p0.2.2)
    (hmax : ∀ q' ∈ l, q'.2.2 ≤ p0.2.2)
    (huniq : ∀ q' ∈ l, q'.2.2 = p0.2.2 → q' = p0) :
    pick_aux th ((none, 0) : Option (CKey × CacheEntry α) × ℚ) l =
      (some (p0.1, p0.2.1), p0.2.2) := by
  rcases first_max_decomp l p0 hmem hmax with ⟨p1, l1, l2, hdec, hsim, hl1, hl2⟩
  have hp1 : p1 = p0 := by
    apply huniq p1 _ hsim
    rw [hdec]
    exact List.mem_append_right l1 (List.mem_cons_self _ _)
  subst hp1
  rw [hdec]
  exact pick_aux_win th p1 l1 l2 (none, 0) (hsim ▸ hth) (hsim ▸ hpos)
    (fun q' hq' => hsim ▸ hl1 q' hq') (fun q' hq' => hsim ▸ hl2 q' hq')

/-! ### Characterization of the similarity lookup -/

theorem find_similar_core_of_scan {α : Type} (env : Env) (s : CState α)
    (content analysis_type language : String) (t : ℚ) (emb : List ℚ)
    (k : CKey) (e : CacheEntry α)
    (hemb : get_embedding env content = some emb) (hne : emb ≠ [])
    (hscan : (scan_best env.cos_sim emb t
      (partition_keys s analysis_type language)).1 = some (k, e)) :
    find_similar_core env s content analysis_type language t =
      (some e.analysis_results,
       set_json s (analysis_type, language, e.content_hash)
         (RVal.entry { e with usage_count := some (e.usage_count.getD 0 + 1),
                              last_used_at := some env.now })) := by
  unfold find_similar_core
  simp only [hemb]
  rw [if_neg hne]
  simp only [hscan]

theorem find_similar_core_hit {α : Type} (env : Env) (s : CState α)
    (content analysis_type language : String) (t : ℚ) (r : α) (s2 : CState α)
    (h : find_similar_core env s content analysis_type language t = (some r, s2)) :
    ∃ (emb : List ℚ) (k : CKey) (e : CacheEntry α),
      get_embedding env content = some emb ∧ emb ≠ [] ∧
      (scan_best env.cos_sim emb t (partition_keys s analysis_type language)).1 =
        some (k, e) ∧
      r = e.analysis_results ∧
      s2 = set_json s (analysis_type, language, e.content_hash)
        (RVal.entry { e with usage_count := some (e.usage_count.getD 0 + 1),
                             last_used_at := some env.now }) := by
  unfold find_similar_core at h
  split at h
  · simp at h
  · rename_i emb hemb
    split at h
    · simp at h
    · rename_i hne
      split at h
      · simp at h
      · rename_i kp k e hscan
        simp only [Prod.mk.injEq] at h
        obtain ⟨h1, h2⟩ := h
        exact ⟨emb, k, e, hemb, hne, hscan, (Option.some.inj h1).symm, h2.symm⟩

/-! ### Claims C2, C4, C7, C9, C10 -/

/-- C2 counterexample: for the caller-supplied threshold `-0.5` the
partition holds exactly one valid entry, whose cosine similarity to the
query is `-0.1` — the maximal similarity over the partition, and strictly
above the threshold — yet `find_similar_analysis` returns nothing, because
the loop's running best similarity starts at `0.0` and a candidate must
also strictly exceed it.  This refutes the claimed "if and only if". -/
theorem C2_counterexample :
    (find_similar_analysis envC2 sOne "x" "bug" "python" (some qn05)).1 = none ∧
    get_embedding envC2 "x" = some [1] ∧
    ((valid_pairs envC2.cos_sim [1] (partition_keys sOne "bug" "python")).map
      (fun p => p.2.2)) = [qn01] ∧
    qn05 < qn01 :=
  ⟨by decide, by decide, by decide, by decide⟩

/-- C2 (amended): the similarity lookup returns the stored entry whose
cosine similarity to the query is maximal over the (valid part of the)
partition if and only if that maximal similarity strictly exceeds BOTH the
threshold AND `0` (the initial running best similarity); when several
entries tie at the maximal similarity, the first one in enumeration order
is returned.  Stated as: the scan yields `(k, e)` exactly when the
partition's processed candidates split around `(k, e, s)` with every
earlier candidate strictly below `s`, every later one at most `s`, and
`s` above both the threshold and `0`. -/
theorem C2_best_match_amended {α : Type} (cos : List ℚ → List ℚ → ℚ) (q : List ℚ)
    (th : ℚ) (part : CState α) (k : CKey) (e : CacheEntry α) :
    (scan_best cos q th part).1 = some (k, e) ↔
      ∃ (s : ℚ) (l1 l2 : List (VTriple α)),
        valid_pairs cos q part = l1 ++ (k, e, s) :: l2 ∧ th < s ∧ 0 < s ∧
        (∀ p ∈ l1, p.2.2 < s) ∧ (∀ p ∈ l2, p.2.2 ≤ s) := by
  rw [scan_best_eq_pick]
  constructor
  · intro h
    rcases pick_aux_sound th (valid_pairs cos q part) (none, 0) with hfix |
      ⟨k', e', s, l1, l2, hres, hdec, hth, hacc, hl1, hl2⟩
    · rw [hfix] at h; cases h
    · rw [hres] at h
      obtain ⟨rfl, rfl⟩ := Prod.ext_iff.mp (Option.some.inj h)
      exact ⟨s, l1, l2, hdec, hth, hacc, hl1, hl2⟩
  · rintro ⟨s, l1, l2, hdec, hth, hpos, hl1, hl2⟩
    rw [hdec, pick_aux_win th (k, e, s) l1 l2 (none, 0) hth hpos hl1 hl2]

/-- C4: when no embedding provider credential is configured,
`find_similar_analysis` returns `None` for every input, leaves the store
untouched, and (being a total function of its inputs in this model) raises
nothing to the caller. -/
theorem C4_unconfigured_returns_none {α : Type} (env : Env) (s : CState α)
    (content analysis_type language : String) (arg : Option ℚ)
    (h : env.openai_configured = false) :
    find_similar_analysis env s content analysis_type language arg = (none, s) := by
  unfold find_similar_analysis
  rw [h]
  simp

/-- C4 witness: the unconfigured environment on a concrete store. -/
theorem C4_witness :
    find_similar_analysis envOff sOne "x" "bug" "python" none = (none, sOne) :=
  C4_unconfigured_returns_none envOff sOne "x" "bug" "python" none rfl

/-- C7: for thresholds `t1 < t2` over the same query and store, any entry
the resolved-threshold lookup body returns at `t2` is also what it returns
at `t1` (with the identical hit side effects): the set of entries
matchable at the higher threshold is a subset of those matchable at the
lower one. -/
theorem C7_threshold_monotone {α : Type} (env : Env) (s : CState α)
    (content analysis_type language : String) (t1 t2 : ℚ) (r : α) (s2 : CState α)
    (hlt : t1 < t2)
    (hhit : find_similar_core env s content analysis_type language t2 = (some r, s2)) :
    find_similar_core env s content analysis_type language t1 = (some r, s2) := by
  rcases find_similar_core_hit env s content analysis_type language t2 r s2 hhit with
    ⟨emb, k, e, hemb, hne, hscan, hr, hs2⟩
  rw [scan_best_eq_pick] at hscan
  rcases pick_aux_sound t2 (valid_pairs env.cos_sim emb
      (partition_keys s analysis_type language)) (none, 0) with hfix |
    ⟨k', e', sv, l1, l2, hres, hdec, hth, hacc, hl1, hl2⟩
  · rw [hfix] at hscan; cases hscan
  · rw [hres] at hscan
    obtain ⟨rfl, rfl⟩ := Prod.ext_iff.mp (Option.some.inj hscan)
    have hscan1 : (scan_best env.cos_sim emb t1
        (partition_keys s analysis_type language)).1 = some (k', e') := by
      rw [scan_best_eq_pick, hdec,
        pick_aux_win t1 (k', e', sv) l1 l2 (none, 0) (lt_trans hlt hth) hacc hl1 hl2]
    rw [hr, hs2]
    exact find_similar_core_of_scan env s content analysis_type language t1 emb
      k' e' hemb hne hscan1

/-- C7 witness: a hit at the default threshold `0.85` is reproduced at
threshold `0`. -/
theorem C7_witness :
    find_similar_core envW sOne "x" "bug" "python" 0 =
      (some 0,
       [(("bug", "python", "h"),
         RVal.entry ⟨"h", "file", [1], 0, "python", q85, some 0, some 2, some 0⟩)]) :=
  C7_threshold_monotone envW sOne "x" "bug" "python" 0 q85 0 _ (by decide) (by decide)

/-- C9 counterexample: the caller passes `similarity_threshold = 0.0`; the
stored entry's similarity to the query is `0.5`, which strictly exceeds
`0.0`, so under the claim the lookup would return its payload — but the
code evaluates `similarity_threshold or self.similarity_threshold`, the
falsy `0.0` is replaced by the default `0.85`, and the lookup misses.  The
second conjunct shows the same lookup body run with the threshold actually
fixed at `0` does hit. -/
theorem C9_counterexample :
    (find_similar_analysis envC9 sOne "x" "bug" "python" (some 0)).1 = none ∧
    (find_similar_core envC9 sOne "x" "bug" "python" 0).1 = some 0 ∧
    envC9.cos_sim [1] [1] = q05 ∧ (0 : ℚ) < q05 :=
  ⟨by decide, by decide, by decide, by decide⟩

/-- C9 (amended): for every caller-supplied similarity threshold other
than the falsy `0.0`, `find_similar_analysis` compares similarities
against the supplied value rather than the configured default; a supplied
`0.0` falls back to the default threshold. -/
theorem C9_threshold_override_amended {α : Type} (env : Env) (s : CState α)
    (content analysis_type language : String) (t : ℚ)
    (hconf : env.openai_configured = true) (ht : t ≠ 0) :
    find_similar_analysis env s content analysis_type language (some t) =
      find_similar_core env s content analysis_type language t := by
  unfold find_similar_analysis resolve_threshold
  rw [hconf]
  simp [ht]

/-- C9 witness: a non-zero caller threshold is the one the lookup uses. -/
theorem C9_witness :
    find_similar_analysis envC9 sOne "x" "bug" "python" (some q05) =
      find_similar_core envC9 sOne "x" "bug" "python" q05 :=
  C9_threshold_override_amended envC9 sOne "x" "bug" "python" q05 rfl (by decide)

/-- C10: on every cache hit, `find_similar_analysis` rewrites the matched
entry under the key derived from its `content_hash` so that only
`usage_count` and `last_used_at` change: `usage_count` becomes its prior
value plus one (a missing field counting as `0`, so the result is at least
`1`), `last_used_at` becomes the current instant, and `embedding_vector`,
`analysis_results`, `content_hash`, `content_type`, `language`,
`similarity_threshold` and `created_at` are written back unchanged; the
returned payload is the stored `analysis_results`. -/
theorem C10_hit_frame {α : Type} (env : Env) (s : CState α)
    (content analysis_type language : String) (arg : Option ℚ) (r : α)
    (s2 : CState α)
    (h : find_similar_analysis env s content analysis_type language arg =
      (some r, s2)) :
    ∃ (emb : List ℚ) (k : CKey) (e : CacheEntry α),
      get_embedding env content = some emb ∧
      (scan_best env.cos_sim emb (resolve_threshold arg env.similarity_threshold)
        (partition_keys s analysis_type language)).1 = some (k, e) ∧
      r = e.analysis_results ∧
      s2 = set_json s (analysis_type, language, e.content_hash)
        (RVal.entry
          ⟨e.content_hash, e.content_type, e.embedding_vector, e.analysis_results,
           e.language, e.similarity_threshold, e.created_at,
           some (e.usage_count.getD 0 + 1), some env.now⟩) ∧
      1 ≤ e.usage_count.getD 0 + 1 := by
  unfold find_similar_analysis at h
  by_cases hconf : env.openai_configured = true
  · rw [hconf] at h
    simp only [if_true] at h
    rcases find_similar_core_hit env s content analysis_type language
      (resolve_threshold arg env.similarity_threshold) r s2 h with
      ⟨emb, k, e, hemb, _, hscan, hr, hs2⟩
    exact ⟨emb, k, e, hemb, hscan, hr, hs2, Nat.le_add_left 1 _⟩
  · rw [if_neg hconf] at h
    simp at h

/-! ### Lemmas about the cleanup sweep -/

theorem key_old_delete_ne {α : Type} (cutoff : ℤ) (st : CState α) (k k' : CKey)
    (h : k' ≠ k) :
    key_old cutoff (redis_delete st k) k' = key_old cutoff st k' := by
  unfold key_old
  rw [get_json_redis_delete_ne st k k' h]

theorem cleanup_step_old {α : Type} (cutoff : ℤ) (st : CState α) (k : CKey) (n : ℕ)
    (h : key_old cutoff st k = true) :
    cleanup_step cutoff (n, st) k = (n + 1, redis_delete st k) := by
  unfold key_old at h
  unfold cleanup_step
  cases hg : get_json st k with
  | none => simp [hg] at h
  | some e =>
    simp only [hg] at h
    cases hc : e.created_at with
    | none => simp [hc] at h
    | some c =>
      simp only [hc, decide_eq_true_eq] at h
      simp only [hg, hc]
      rw [if_pos h]

theorem cleanup_step_fresh {α : Type} (cutoff : ℤ) (st : CState α) (k : CKey) (n : ℕ)
    (h : key_old cutoff st k = false) :
    cleanup_step cutoff (n, st) k = (n, st) := by
  unfold key_old at h
  unfold cleanup_step
  cases hg : get_json st k with
  | none => simp only [hg]
  | some e =>
    simp only [hg] at h
    cases hc : e.created_at with
    | none => simp only [hg, hc]
    | some c =>
      simp only [hc, decide_eq_false_iff_not] at h
      simp only [hg, hc]
      rw [if_neg h]

theorem cleanup_fold_char {α : Type} (cutoff : ℤ) :
    ∀ (ks : List CKey) (st : CState α) (n : ℕ), ks.Nodup →
      ks.foldl (cleanup_step cutoff) (n, st) =
        (n + (ks.filter (key_old cutoff st)).length,
         st.filter (fun kv => ! (decide (kv.1 ∈ ks) && key_old cutoff st kv.1))) := by
  intro ks
  induction ks with
  | nil =>
    intro st n _
    simp
  | cons k ks' ih =>
    intro st n hnd
    have hknotin : k ∉ ks' := (List.nodup_cons.mp hnd).1
    have hnd' : ks'.Nodup := (List.nodup_cons.mp hnd).2
    rw [List.foldl_cons]
    by_cases hk : key_old cutoff st k = true
    · rw [cleanup_step_old cutoff st k n hk]
      rw [ih (redis_delete st k) (n + 1) hnd']
      have htrans : ∀ k' ∈ ks', key_old cutoff (redis_delete st k) k' =
          key_old cutoff st k' := by
        intro k' hk'
        exact key_old_delete_ne cutoff st k k' (fun he => hknotin (he ▸ hk'))
      simp only [Prod.mk.injEq]
      constructor
      case _ =>
        -- counts agree
        rw [List.filter_congr htrans]
        rw [List.filter_cons_of_pos (by simpa using hk)]
        simp [Nat.add_comm, Nat.add_assoc, Nat.add_left_comm]
      case _ =>
        -- states agree
        unfold redis_delete
        rw [List.filter_filter]
        apply List.filter_congr
        intro kv hkv
        by_cases hkvk : kv.1 = k
        · have h1 : (decide (¬ kv.1 = k)) = false := by simp [hkvk]
          have h2 : decide (kv.1 ∈ k :: ks') = true := by simp [hkvk]
          rw [h1, h2]
          simp [hkvk, hk]
        · have h1 : (decide (¬ kv.1 = k)) = true := by simp [hkvk]
          have h2 : key_old cutoff (redis_delete st k) kv.1 =
              key_old cutoff st kv.1 :=
            key_old_delete_ne cutoff st k kv.1 hkvk
          rw [h1, Bool.and_true,
            show key_old cutoff (List.filter (fun kv => decide (¬ kv.1 = k)) st) kv.1 =
              key_old cutoff st kv.1 from h2]
          have h3 : (kv.1 ∈ k :: ks') ↔ (kv.1 ∈ ks') := by
            constructor
            · intro hm
              rcases List.mem_cons.mp hm with he | hm'
              · exact absurd he hkvk
              · exact hm'
            · exact fun hm => List.mem_cons_of_mem k hm
          simp [h3]
    · have hk' : key_old cutoff st k = false := bool_not_true hk
      rw [cleanup_step_fresh cutoff st k n hk']
      rw [ih st n hnd']
      simp only [Prod.mk.injEq]
      constructor
      case _ =>
        rw [List.filter_cons_of_neg (by simp [hk'])]
      case _ =>
        apply List.filter_congr
        intro kv hkv
        by_cases hkvk : kv.1 = k
        · have h2 : decide (kv.1 ∈ k :: ks') = true := by simp [hkvk]
          have h4 : decide (kv.1 ∈ ks') = false := by
            simp only [decide_eq_false_iff_not]
            rw [hkvk]
            exact hknotin
          rw [h2, h4]
          simp [hkvk, hk']
        · have h3 : (kv.1 ∈ k :: ks') ↔ (kv.1 ∈ ks') := by
            constructor
            · intro hm
              rcases List.mem_cons.mp hm with he | hm'
              · exact absurd he hkvk
              · exact hm'
            · exact fun hm => List.mem_cons_of_mem k hm
          simp [h3]

theorem key_old_eq_entry_old {α : Type} (cutoff : ℤ) (s : CState α) (k1 : CKey)
    (v : RVal α) (h : (s.map Prod.fst).Nodup) (hm : (k1, v) ∈ s) :
    key_old cutoff s k1 = entry_old cutoff v := by
  have hf := get_json_of_nodup s (k1, v) h hm
  cases v with
  | corrupt =>
    have hg : get_json s k1 = none := by unfold get_json; rw [hf]
    unfold key_old entry_old
    rw [hg]
  | entry e =>
    have hg : get_json s k1 = some e := by unfold get_json; rw [hf]
    unfold key_old entry_old
    rw [hg]

theorem cleanup_char {α : Type} (env : Env) (s : CState α) (d : ℤ)
    (h : (s.map Prod.fst).Nodup) :
    cleanup_old_entries env s d =
      ((s.filter (fun kv => entry_old (env.now - d * 86400) kv.2)).length,
       s.filter (fun kv => ! entry_old (env.now - d * 86400) kv.2)) := by
  unfold cleanup_old_entries
  rw [cleanup_fold_char (env.now - d * 86400) (s.map Prod.fst) s 0 h]
  simp only [Prod.mk.injEq]
  constructor
  case _ =>
    rw [List.filter_map]
    rw [List.length_map]
    rw [List.filter_congr (fun kv hkv => by
      have : key_old (env.now - d * 86400) s ((Prod.fst ∘ id) kv) =
          entry_old (env.now - d * 86400) kv.2 :=
        key_old_eq_entry_old (env.now - d * 86400) s kv.1 kv.2 h hkv
      simpa using this)]
    simp
  case _ =>
    apply List.filter_congr
    intro kv hkv
    have h1 : decide (kv.1 ∈ s.map Prod.fst) = true := by
      simp only [decide_eq_true_eq]
      exact List.mem_map.mpr ⟨kv, hkv, rfl⟩
    rw [h1, Bool.true_and,
      key_old_eq_entry_old (env.now - d * 86400) s kv.1 kv.2 h hkv]

/-! ### Claims C3 and C5 -/

/-- C3: for every age cutoff `d` and store state (with well-formed, hence
duplicate-free, Redis keys), `cleanup_old_entries` deletes exactly the
entries whose `created_at` parses to an instant strictly before
`now - d` days, leaves every other stored value (including corrupt values
and entries with unparseable `created_at`, which are skipped without
aborting the sweep) unchanged and in place, returns the number of entries
deleted, and a second run at the same instant removes `0` entries and
changes nothing. -/
theorem C3_cleanup_exact {α : Type} (env : Env) (s : CState α) (d : ℤ)
    (h : (s.map Prod.fst).Nodup) :
    cleanup_old_entries env s d =
      ((s.filter (fun kv => entry_old (env.now - d * 86400) kv.2)).length,
       s.filter (fun kv => ! entry_old (env.now - d * 86400) kv.2)) ∧
    cleanup_old_entries env
        (s.filter (fun kv => ! entry_old (env.now - d * 86400) kv.2)) d =
      (0, s.filter (fun kv => ! entry_old (env.now - d * 86400) kv.2)) := by
  refine ⟨cleanup_char env s d h, ?_⟩
  have hsub : (s.filter (fun kv => ! entry_old (env.now - d * 86400) kv.2)).Sublist s :=
    List.filter_sublist s
  have h' : ((s.filter (fun kv => ! entry_old (env.now - d * 86400) kv.2)).map
      Prod.fst).Nodup :=
    List.Nodup.sublist (hsub.map Prod.fst) h
  rw [cleanup_char env _ d h']
  rw [List.filter_filter, List.filter_filter]
  have hzero : s.filter
      (fun kv => entry_old (env.now - d * 86400) kv.2 &&
        ! entry_old (env.now - d * 86400) kv.2) = [] := by
    apply List.filter_eq_nil_iff.mpr
    intro kv _
    simp
  have hsame : s.filter
      (fun kv => ! entry_old (env.now - d * 86400) kv.2 &&
        ! entry_old (env.now - d * 86400) kv.2) =
      s.filter (fun kv => ! entry_old (env.now - d * 86400) kv.2) := by
    apply List.filter_congr
    intro kv _
    rw [Bool.and_self]
  rw [hzero, hsame]
  rfl

/-- C3 witness: the concrete four-value store `sT` at day 100 with cutoff
30 days: exactly the day-0 entry is removed; the corrupt value, the
fresh entry and the unparseable entry survive; the second run removes
nothing. -/
theorem C3_cleanup_witness :
    cleanup_old_entries envT sT 30 =
      ((sT.filter (fun kv => entry_old (envT.now - 30 * 86400) kv.2)).length,
       sT.filter (fun kv => ! entry_old (envT.now - 30 * 86400) kv.2)) ∧
    cleanup_old_entries envT
        (sT.filter (fun kv => ! entry_old (envT.now - 30 * 86400) kv.2)) 30 =
      (0, sT.filter (fun kv => ! entry_old (envT.now - 30 * 86400) kv.2)) :=
  C3_cleanup_exact envT sT 30 (by decide)

/-- Success shape of `cache_analysis_result` under a configured provider
returning a non-empty vector. -/
theorem cache_analysis_result_success {α : Type} (env : Env) (s : CState α)
    (content analysis_type language : String) (analysis_results : α)
    (content_type : String) (v : List ℚ)
    (hconf : env.openai_configured = true)
    (hemb : get_embedding env content = some v) (hv : v ≠ []) :
    cache_analysis_result env s content analysis_type language analysis_results
        content_type =
      (true,
       set_json s (analysis_type, language, generate_content_hash env content analysis_type)
         (RVal.entry
           { content_hash := generate_content_hash env content analysis_type
             content_type := content_type
             embedding_vector := v
             analysis_results := analysis_results
             language := language
             similarity_threshold := env.similarity_threshold
             created_at := some env.now
             usage_count := some 1
             last_used_at := some env.now })) := by
  unfold cache_analysis_result
  rw [hconf]
  simp only [if_true, hemb]
  rw [if_neg hv]

/-- C5: the key of an entry is `(analysis_type, language, content_hash)`;
a second store for the same content and analysis type writes to the same
key and overwrites the first entry's value entirely, so a lookup of that
key afterwards sees only the second payload (and the second
`content_type`), and the store keeps at most one entry per key: both
writes succeed and key-uniqueness of the state is preserved. -/
theorem C5_overwrite_same_key {α : Type} (env : Env) (s : CState α)
    (content analysis_type language : String) (R1 R2 : α) (ct1 ct2 : String)
    (v : List ℚ) (hconf : env.openai_configured = true)
    (hemb : get_embedding env content = some v) (hv : v ≠ []) :
    (cache_analysis_result env s content analysis_type language R1 ct1).1 = true ∧
    (cache_analysis_result env
      (cache_analysis_result env s content analysis_type language R1 ct1).2
      content analysis_type language R2 ct2).1 = true ∧
    get_json (cache_analysis_result env
        (cache_analysis_result env s content analysis_type language R1 ct1).2
        content analysis_type language R2 ct2).2
      (analysis_type, language, generate_content_hash env content analysis_type) =
      some { content_hash := generate_content_hash env content analysis_type
             content_type := ct2
             embedding_vector := v
             analysis_results := R2
             language := language
             similarity_threshold := env.similarity_threshold
             created_at := some env.now
             usage_count := some 1
             last_used_at := some env.now } ∧
    ((s.map Prod.fst).Nodup →
      ((cache_analysis_result env
          (cache_analysis_result env s content analysis_type language R1 ct1).2
          content analysis_type language R2 ct2).2.map Prod.fst).Nodup) := by
  rw [cache_analysis_result_success env s content analysis_type language R1 ct1 v
    hconf hemb hv]
  rw [cache_analysis_result_success env _ content analysis_type language R2 ct2 v
    hconf hemb hv]
  refine ⟨rfl, rfl, ?_, ?_⟩
  · exact get_json_set_json_entry _ _ _
  · intro hnd
    exact set_json_keys_nodup _ _ _ (set_json_keys_nodup _ _ _ hnd)

/-- C5 witness: two stores of different payloads for the same content and
analysis type under the working environment. -/
theorem C5_witness :
    (cache_analysis_result envW ([] : CState ℕ) "x" "bug" "python" 1 "file").1 = true ∧
    (cache_analysis_result envW
      (cache_analysis_result envW ([] : CState ℕ) "x" "bug" "python" 1 "file").2
      "x" "bug" "python" 2 "function").1 = true ∧
    get_json (cache_analysis_result envW
        (cache_analysis_result envW ([] : CState ℕ) "x" "bug" "python" 1 "file").2
        "x" "bug" "python" 2 "function").2
      ("bug", "python", generate_content_hash envW "x" "bug") =
      some { content_hash := generate_content_hash envW "x" "bug"
             content_type := "function"
             embedding_vector := [1]
             analysis_results := 2
             language := "python"
             similarity_threshold := envW.similarity_threshold
             created_at := some envW.now
             usage_count := some 1
             last_used_at := some envW.now } ∧
    ((([] : CState ℕ).map Prod.fst).Nodup →
      ((cache_analysis_result envW
          (cache_analysis_result envW ([] : CState ℕ) "x" "bug" "python" 1 "file").2
          "x" "bug" "python" 2 "function").2.map Prod.fst).Nodup) :=
  C5_overwrite_same_key envW ([] : CState ℕ) "x" "bug" "python" 1 2 "file" "function"
    [1] rfl (by decide) (by decide)

/-- C10 witness: a concrete hit against the one-entry store `sOne`. -/
theorem C10_witness :
    ∃ (emb : List ℚ) (k : CKey) (e : CacheEntry ℕ),
      get_embedding envW "x" = some emb ∧
      (scan_best envW.cos_sim emb (resolve_threshold none envW.similarity_threshold)
        (partition_keys sOne "bug" "python")).1 = some (k, e) ∧
      (0 : ℕ) = e.analysis_results ∧
      ([(("bug", "python", "h"),
        RVal.entry (⟨"h", "file", [1], 0, "python", q85, some 0, some 2, some 0⟩ :
          CacheEntry ℕ))] : CState ℕ) =
        set_json sOne ("bug", "python", e.content_hash)
          (RVal.entry
            ⟨e.content_hash, e.content_type, e.embedding_vector, e.analysis_results,
             e.language, e.similarity_threshold, e.created_at,
             some (e.usage_count.getD 0 + 1), some envW.now⟩) ∧
      1 ≤ e.usage_count.getD 0 + 1 :=
  C10_hit_frame envW sOne "x" "bug" "python" none 0
    [(("bug", "python", "h"),
      RVal.entry (⟨"h", "file", [1], 0, "python", q85, some 0, some 2, some 0⟩ :
        CacheEntry ℕ))]
    (by decide)

/-! ### Lemmas about the chunk extractor -/

theorem chunk_step_other (language : String) (st : ChunkState) (line : String)
    (h1 : language ≠ "python") (h2 : language ≠ "javascript")
    (h3 : language ≠ "typescript") :
    chunk_step language st line = st := by
  simp only [chunk_step]
  rw [if_neg h1, if_neg (by
    intro hc
    cases hc with
    | inl h => exact h2 h
    | inr h => exact h3 h)]

theorem foldl_const {β σ : Type} (f : σ → β → σ) (hid : ∀ st x, f st x = st) :
    ∀ (l : List β) (init : σ), List.foldl f init l = init := by
  intro l
  induction l with
  | nil => intro init; rfl
  | cons x rest ih =>
    intro init
    rw [List.foldl_cons, hid init x]
    exact ih init

theorem foldl_fixed_of_mem {β σ : Type} (f : σ → β → σ) (init : σ) :
    ∀ l : List β, (∀ x ∈ l, f init x = init) → List.foldl f init l = init := by
  intro l
  induction l with
  | nil => intro _; rfl
  | cons x rest ih =>
    intro h
    rw [List.foldl_cons, h x (List.mem_cons_self x rest)]
    exact ih (fun y hy => h y (List.mem_cons_of_mem x hy))

theorem extract_other (content language : String)
    (h1 : language ≠ "python") (h2 : language ≠ "javascript")
    (h3 : language ≠ "typescript") :
    extract_code_chunks content language = [("file", content)] := by
  unfold extract_code_chunks
  have hfold := foldl_const (chunk_step language)
    (fun st line => chunk_step_other language st line h1 h2 h3)
    (py_split_lines content) ⟨[], [], [], false, false⟩
  simp only [hfold]
  rfl

theorem chunk_step_py_free (line : String)
    (h1 : py_starts (py_strip line) "def " = false)
    (h2 : py_starts (py_strip line) "class " = false) :
    chunk_step "python" ⟨[], [], [], false, false⟩ line = ⟨[], [], [], false, false⟩ := by
  simp [chunk_step, h1, h2]

theorem extract_python_free (content : String)
    (h : ∀ line ∈ py_split_lines content,
      py_starts (py_strip line) "def " = false ∧
      py_starts (py_strip line) "class " = false) :
    extract_code_chunks content "python" = [("file", content)] := by
  unfold extract_code_chunks
  have hfold := foldl_fixed_of_mem (chunk_step "python") ⟨[], [], [], false, false⟩
    (py_split_lines content)
    (fun line hline => chunk_step_py_free line (h line hline).1 (h line hline).2)
  simp only [hfold]
  rfl

theorem chunk_step_js_free (language : String)
    (hl : language = "javascript" ∨ language = "typescript") (line : String)
    (h1 : chars_sub ("function ".toList) (py_strip line).toList = false)
    (h2 : chars_sub ("=>".toList) (py_strip line).toList = false)
    (h3 : py_starts (py_strip line) "class " = false) :
    chunk_step language ⟨[], [], [], false, false⟩ line = ⟨[], [], [], false, false⟩ := by
  have hpy : language ≠ "python" := by
    cases hl with
    | inl h => rw [h]; decide
    | inr h => rw [h]; decide
  simp only [chunk_step]
  rw [if_neg hpy, if_pos hl, h1, h2, h3]
  simp

theorem extract_js_free (content language : String)
    (hl : language = "javascript" ∨ language = "typescript")
    (h : ∀ line ∈ py_split_lines content,
      chars_sub ("function ".toList) (py_strip line).toList = false ∧
      chars_sub ("=>".toList) (py_strip line).toList = false ∧
      py_starts (py_strip line) "class " = false) :
    extract_code_chunks content language = [("file", content)] := by
  unfold extract_code_chunks
  have hfold := foldl_fixed_of_mem (chunk_step language) ⟨[], [], [], false, false⟩
    (py_split_lines content)
    (fun line hline => chunk_step_js_free language hl line
      (h line hline).1 (h line hline).2.1 (h line hline).2.2)
  simp only [hfold]
  rfl

theorem extract_empty (language : String) :
    extract_code_chunks "" language = [("file", "")] := by
  by_cases h1 : language = "python"
  · subst h1
    decide
  · by_cases h2 : language = "javascript"
    · subst h2
      decide
    · by_cases h3 : language = "typescript"
      · subst h3
        decide
      · exact extract_other "" language h1 h2 h3

/-! ### Claim C6 -/

/-- C6: the chunk extractor is a total function of its two inputs (so it
never raises), and whenever no chunk boundary fires it yields exactly one
`("file", content)` pair with the unmodified input text: in particular for
every language other than python, javascript and typescript; for the empty
text under every language; for python text none of whose stripped lines
starts with `def ` or `class `; and for javascript/typescript text none of
whose stripped lines contains `function ` or `=>` or starts with
`class `. -/
theorem C6_chunk_fallback :
    (∀ (content language : String), language ≠ "python" →
      language ≠ "javascript" → language ≠ "typescript" →
      extract_code_chunks content language = [("file", content)]) ∧
    (∀ language : String, extract_code_chunks "" language = [("file", "")]) ∧
    (∀ content : String,
      (∀ line ∈ py_split_lines content,
        py_starts (py_strip line) "def " = false ∧
        py_starts (py_strip line) "class " = false) →
      extract_code_chunks content "python" = [("file", content)]) ∧
    (∀ (content language : String),
      (language = "javascript" ∨ language = "typescript") →
      (∀ line ∈ py_split_lines content,
        chars_sub ("function ".toList) (py_strip line).toList = false ∧
        chars_sub ("=>".toList) (py_strip line).toList = false ∧
        py_starts (py_strip line) "class " = false) →
      extract_code_chunks content language = [("file", content)]) :=
  ⟨extract_other, extract_empty, extract_python_free, extract_js_free⟩

/-- C6 witness: a go file, an empty python file, a boundary-free python
file, and a boundary-free javascript file. -/
theorem C6_witness :
    extract_code_chunks "print(1)" "go" = [("file", "print(1)")] ∧
    extract_code_chunks "" "python" = [("file", "")] ∧
    extract_code_chunks "x = 1\ny = 2" "python" = [("file", "x = 1\ny = 2")] ∧
    extract_code_chunks "var x = 1;" "javascript" = [("file", "var x = 1;")] :=
  ⟨C6_chunk_fallback.1 "print(1)" "go" (by decide) (by decide) (by decide),
   C6_chunk_fallback.2.1 "python",
   C6_chunk_fallback.2.2.1 "x = 1\ny = 2" (by decide),
   C6_chunk_fallback.2.2.2 "var x = 1;" "javascript" (Or.inl rfl) (by decide)⟩

/-! ### Claim C1 -/

theorem set_json_mem_self {α : Type} (s : CState α) (k : CKey) (v : RVal α) :
    (k, v) ∈ set_json s k v := by
  unfold set_json
  by_cases hany : s.any (fun kv => decide (kv.1 = k))
  · rw [if_pos hany]
    rcases List.any_eq_true.mp hany with ⟨kv0, hkv0, hpred⟩
    have hk : kv0.1 = k := of_decide_eq_true hpred
    exact List.mem_map.mpr ⟨kv0, hkv0, by rw [if_pos hk]⟩
  · rw [if_neg hany]
    exact List.mem_append_right s (List.mem_singleton.mpr rfl)

theorem set_json_mem {α : Type} (s : CState α) (k : CKey) (v : RVal α) :
    ∀ kv ∈ set_json s k v, kv = (k, v) ∨ (kv ∈ s ∧ kv.1 ≠ k) := by
  intro kv hm
  unfold set_json at hm
  by_cases hany : s.any (fun kv => decide (kv.1 = k))
  · rw [if_pos hany] at hm
    rcases List.mem_map.mp hm with ⟨kv0, hkv0, hf⟩
    by_cases hk : kv0.1 = k
    · rw [if_pos hk] at hf
      exact Or.inl hf.symm
    · rw [if_neg hk] at hf
      exact Or.inr ⟨hf ▸ hkv0, hf ▸ hk⟩
  · rw [if_neg hany] at hm
    rcases List.mem_append.mp hm with hm' | hm'
    · refine Or.inr ⟨hm', ?_⟩
      intro hc
      have hta : s.any (fun kv => decide (kv.1 = k)) = true :=
        List.any_eq_true.mpr ⟨kv, hm', by simp [hc]⟩
      exact hany hta
    · exact Or.inl (List.mem_singleton.mp hm')

theorem find_similar_analysis_default {α : Type} (env : Env) (s : CState α)
    (content analysis_type language : String)
    (hconf : env.openai_configured = true) :
    find_similar_analysis env s content analysis_type language none =
      find_similar_core env s content analysis_type language
        env.similarity_threshold := by
  unfold find_similar_analysis
  rw [hconf]
  rfl

/-- C1 counterexample: the provider is configured, deterministic (it is a
function), and returns the non-empty vector `[1, 0]` for every text; the
store already holds an entry embedded as `[2, 0]` with payload `0`; the
cosine similarity of the query `[1, 0]` with both `[2, 0]` and `[1, 0]`
is exactly `1` (they are positively colinear), which is what `cos_sim`
returns on every pair the lookup evaluates.  `cache_analysis_result`
succeeds, but the immediately following `find_similar_analysis` at the
default threshold returns the pre-existing payload `0` — the tie at
similarity `1` is broken in favour of the first entry in enumeration
order — not the payload `1` just stored. -/
theorem C1_counterexample :
    (cache_analysis_result envC1 s0C1 "x" "bug" "python" (1 : ℕ) "file").1 = true ∧
    (find_similar_analysis envC1
      (cache_analysis_result envC1 s0C1 "x" "bug" "python" (1 : ℕ) "file").2
      "x" "bug" "python" none).1 = some 0 ∧
    (find_similar_analysis envC1
      (cache_analysis_result envC1 s0C1 "x" "bug" "python" (1 : ℕ) "file").2
      "x" "bug" "python" none).1 ≠ some 1 :=
  ⟨by decide, by decide, by decide⟩

/-- C1 (amended): for every content, analysis type, language and payload,
when the provider is configured, deterministic, and returns a non-empty
vector `v` whose self-similarity `cos_sim v v` strictly exceeds the
(non-negative) default threshold, and every other valid entry of the
partition is strictly less similar to `v` than `v` is to itself, then
`cache_analysis_result` succeeds and the immediately following
`find_similar_analysis` at the default threshold returns the payload just
stored. -/
theorem C1_round_trip_amended {α : Type} (env : Env) (s : CState α)
    (content analysis_type language : String) (R : α) (v : List ℚ)
    (hconf : env.openai_configured = true)
    (hemb : get_embedding env content = some v) (hv : v ≠ [])
    (hth : env.similarity_threshold < env.cos_sim v v)
    (hth0 : 0 ≤ env.similarity_threshold)
    (hdom : ∀ kv ∈ s, kv.1.1 = analysis_type → kv.1.2.1 = language →
      kv.1 ≠ (analysis_type, language,
        generate_content_hash env content analysis_type) →
      ∀ e : CacheEntry α, kv.2 = RVal.entry e → e.embedding_vector ≠ [] →
      env.cos_sim v e.embedding_vector < env.cos_sim v v) :
    (cache_analysis_result env s content analysis_type language R "file").1 = true ∧
    (find_similar_analysis env
      (cache_analysis_result env s content analysis_type language R "file").2
      content analysis_type language none).1 = some R := by
  have hsucc := cache_analysis_result_success env s content analysis_type language
    R "file" v hconf hemb hv
  have hb : (cache_analysis_result env s content analysis_type language R "file").1 =
      true := by rw [hsucc]
  have hs1 : (cache_analysis_result env s content analysis_type language R "file").2 =
      set_json s (analysis_type, language,
        generate_content_hash env content analysis_type)
        (RVal.entry
          { content_hash := generate_content_hash env content analysis_type
            content_type := "file"
            embedding_vector := v
            analysis_results := R
            language := language
            similarity_threshold := env.similarity_threshold
            created_at := some env.now
            usage_count := some 1
            last_used_at := some env.now }) := by rw [hsucc]
  refine ⟨hb, ?_⟩
  rw [hs1, find_similar_analysis_default env _ content analysis_type language hconf]
  have hchar : ∀ q' ∈ valid_pairs env.cos_sim v
      (partition_keys (set_json s (analysis_type, language,
        generate_content_hash env content analysis_type)
        (RVal.entry
          { content_hash := generate_content_hash env content analysis_type
            content_type := "file"
            embedding_vector := v
            analysis_results := R
            language := language
            similarity_threshold := env.similarity_threshold
            created_at := some env.now
            usage_count := some 1
            last_used_at := some env.now })) analysis_type language),
      q' = ((analysis_type, language,
          generate_content_hash env content analysis_type),
        ({ content_hash := generate_content_hash env content analysis_type
           content_type := "file"
           embedding_vector := v
           analysis_results := R
           language := language
           similarity_threshold := env.similarity_threshold
           created_at := some env.now
           usage_count := some 1
           last_used_at := some env.now } : CacheEntry α),
        env.cos_sim v v) ∨ q'.2.2 < env.cos_sim v v := by
    intro q' hq'
    rcases List.mem_filterMap.mp hq' with ⟨kv, hkvmem, hvalid⟩
    have hpart := List.mem_filter.mp hkvmem
    have hpred := of_decide_eq_true hpart.2
    rcases set_json_mem _ _ _ kv hpart.1 with hnew | ⟨hold, hne⟩
    · left
      rw [hnew] at hvalid
      simp [to_valid, hv] at hvalid
      exact hvalid.symm
    · cases hkv2 : kv.2 with
      | corrupt => simp [to_valid, hkv2] at hvalid
      | entry e =>
        by_cases hee : e.embedding_vector = []
        · simp [to_valid, hkv2, hee] at hvalid
        · right
          simp only [to_valid, hkv2] at hvalid
          rw [if_neg hee] at hvalid
          have hlt := hdom kv hold hpred.1 hpred.2 hne e hkv2 hee
          have hq'eq : (kv.1, e, env.cos_sim v e.embedding_vector) = q' :=
            Option.some.inj hvalid
          rw [← hq'eq]
          exact hlt
  have hscan : (scan_best env.cos_sim v env.similarity_threshold
      (partition_keys (set_json s (analysis_type, language,
        generate_content_hash env content analysis_type)
        (RVal.entry
          { content_hash := generate_content_hash env content analysis_type
            content_type := "file"
            embedding_vector := v
            analysis_results := R
            language := language
            similarity_threshold := env.similarity_threshold
            created_at := some env.now
            usage_count := some 1
            last_used_at := some env.now })) analysis_type language)).1 =
      some ((analysis_type, language,
          generate_content_hash env content analysis_type),
        { content_hash := generate_content_hash env content analysis_type
          content_type := "file"
          embedding_vector := v
          analysis_results := R
          language := language
          similarity_threshold := env.similarity_threshold
          created_at := some env.now
          usage_count := some 1
          last_used_at := some env.now }) := by
    rw [scan_best_eq_pick]
    have hmem : ((analysis_type, language,
        generate_content_hash env content analysis_type),
        ({ content_hash := generate_content_hash env content analysis_type
           content_type := "file"
           embedding_vector := v
           analysis_results := R
           language := language
           similarity_threshold := env.similarity_threshold
           created_at := some env.now
           usage_count := some 1
           last_used_at := some env.now } : CacheEntry α),
        env.cos_sim v v) ∈ valid_pairs env.cos_sim v
        (partition_keys (set_json s (analysis_type, language,
          generate_content_hash env content analysis_type)
          (RVal.entry
            { content_hash := generate_content_hash env content analysis_type
              content_type := "file"
              embedding_vector := v
              analysis_results := R
              language := language
              similarity_threshold := env.similarity_threshold
              created_at := some env.now
              usage_count := some 1
              last_used_at := some env.now })) analysis_type language) := by
      apply List.mem_filterMap.mpr
      refine ⟨((analysis_type, language,
          generate_content_hash env content analysis_type),
        RVal.entry
          { content_hash := generate_content_hash env content analysis_type
            content_type := "file"
            embedding_vector := v
            analysis_results := R
            language := language
            similarity_threshold := env.similarity_threshold
            created_at := some env.now
            usage_count := some 1
            last_used_at := some env.now }), ?_, ?_⟩
      · apply List.mem_filter.mpr
        refine ⟨set_json_mem_self _ _ _, by simp⟩
      · simp [to_valid, hv]
    have hwin := pick_best_winner env.similarity_threshold _ _ hmem hth
      (lt_of_le_of_lt hth0 hth)
      (fun q' hq' => by
        rcases hchar q' hq' with rfl | hlt
        · exact le_rfl
        · exact le_of_lt hlt)
      (fun q' hq' heq => by
        rcases hchar q' hq' with rfl | hlt
        · rfl
        · exact absurd heq (ne_of_lt hlt))
    rw [hwin]
  rw [find_similar_core_of_scan env _ content analysis_type language
    env.similarity_threshold v _ _ hemb hv hscan]

/-- C1 witness: the round trip through an empty store under the working
environment returns the stored payload. -/
theorem C1_round_trip_witness :
    (cache_analysis_result envW ([] : CState ℕ) "x" "bug" "python" 1 "file").1 =
      true ∧
    (find_similar_analysis envW
      (cache_analysis_result envW ([] : CState ℕ) "x" "bug" "python" 1 "file").2
      "x" "bug" "python" none).1 = some 1 :=
  C1_round_trip_amended envW ([] : CState ℕ) "x" "bug" "python" 1 [1] rfl
    (by decide) (by decide) (by decide) (by decide)
    (fun kv h => absurd h (List.not_mem_nil kv))

/-! ### Lemmas about per-chunk caching -/

theorem cache_analysis_result_total {α : Type} (env : Env)
    (hconf : env.openai_configured = true) (hT : total_embedder env)
    (s : CState α) (content analysis_type language : String) (R : α)
    (ct : String) :
    ∃ v : List ℚ, v ≠ [] ∧
      cache_analysis_result env s content analysis_type language R ct =
        (true,
         set_json s (analysis_type, language,
           generate_content_hash env content analysis_type)
           (RVal.entry
             { content_hash := generate_content_hash env content analysis_type
               content_type := ct
               embedding_vector := v
               analysis_results := R
               language := language
               similarity_threshold := env.similarity_threshold
               created_at := some env.now
               usage_count := some 1
               last_used_at := some env.now })) := by
  obtain ⟨v, hv1, hv2⟩ := hT (truncate_text content)
  have hge : get_embedding env content = some v := by
    unfold get_embedding
    rw [hconf, if_pos rfl]
    exact hv1
  exact ⟨v, hv2, cache_analysis_result_success env s content analysis_type language
    R ct v hconf hge hv2⟩

theorem cache_result_get_other {α : Type} (env : Env) (st : CState α)
    (content analysis_type language : String) (R : α) (ct : String) (k : CKey)
    (hk : k.1 ≠ analysis_type ∨ k.2.1 ≠ language) :
    get_json (cache_analysis_result env st content analysis_type language R ct).2 k =
      get_json st k := by
  have hkne : k ≠ (analysis_type, language,
      generate_content_hash env content analysis_type) := by
    intro hc
    rcases hk with h | h
    · exact h (by rw [hc])
    · exact h (by rw [hc])
  unfold cache_analysis_result
  by_cases hconf : env.openai_configured = true
  · rw [hconf, if_pos rfl]
    cases hemb : get_embedding env content with
    | none => simp only [hemb]
    | some emb =>
      simp only [hemb]
      by_cases he : emb = []
      · rw [if_pos he]
      · rw [if_neg he]
        exact get_json_set_json_ne st _ k _ hkne
  · rw [if_neg hconf]

theorem cache_result_get {α : Type} (env : Env) (st : CState α)
    (content analysis_type language : String) (R : α) (ct : String) (k : CKey) :
    get_json (cache_analysis_result env st content analysis_type language R ct).2 k =
      get_json st k ∨
    ∃ e : CacheEntry α,
      get_json (cache_analysis_result env st content analysis_type language R ct).2 k =
        some e ∧ e.analysis_results = R := by
  unfold cache_analysis_result
  by_cases hconf : env.openai_configured = true
  · rw [hconf, if_pos rfl]
    cases hemb : get_embedding env content with
    | none => exact Or.inl (by simp only [hemb])
    | some emb =>
      simp only [hemb]
      by_cases he : emb = []
      · rw [if_pos he]; exact Or.inl rfl
      · rw [if_neg he]
        by_cases hk : k = (analysis_type, language,
            generate_content_hash env content analysis_type)
        · right
          rw [hk]
          exact ⟨{ content_hash := generate_content_hash env content analysis_type
                   content_type := ct
                   embedding_vector := emb
                   analysis_results := R
                   language := language
                   similarity_threshold := env.similarity_threshold
                   created_at := some env.now
                   usage_count := some 1
                   last_used_at := some env.now },
                 get_json_set_json_entry st _ _, rfl⟩
        · left
          exact get_json_set_json_ne st _ k _ hk
  · rw [if_neg hconf]; exact Or.inl rfl

theorem cache_result_get_self {α : Type} (env : Env) (st : CState α)
    (content analysis_type language : String) (R : α) (ct : String)
    (hconf : env.openai_configured = true) (hT : total_embedder env) :
    ∃ e : CacheEntry α,
      get_json (cache_analysis_result env st content analysis_type language R ct).2
        (analysis_type, language, generate_content_hash env content analysis_type) =
        some e ∧ e.analysis_results = R := by
  obtain ⟨v, hv, hcache⟩ := cache_analysis_result_total env hconf hT st content
    analysis_type language R ct
  have h2 := congrArg Prod.snd hcache
  rw [h2]
  exact ⟨_, get_json_set_json_entry _ _ _, rfl⟩

theorem chunk_store_fold_cons_sub {α : Type} (env : Env) (t l : String) (R : α)
    (n : ℕ) (st : CState α) (ch : String × String) (rest : List (String × String))
    (hs : substantial ch = true) :
    chunk_store_fold env t l R (n, st) (ch :: rest) =
      chunk_store_fold env t l R
        ((if (cache_analysis_result env st ch.2 t l R ch.1).1 then n + 1 else n),
         (cache_analysis_result env st ch.2 t l R ch.1).2) rest := by
  simp only [chunk_store_fold]
  rw [if_pos hs]

theorem chunk_store_fold_cons_skip {α : Type} (env : Env) (t l : String) (R : α)
    (n : ℕ) (st : CState α) (ch : String × String) (rest : List (String × String))
    (hs : substantial ch = false) :
    chunk_store_fold env t l R (n, st) (ch :: rest) =
      chunk_store_fold env t l R (n, st) rest := by
  simp only [chunk_store_fold]
  rw [if_neg (by rw [hs]; exact Bool.false_ne_true)]

theorem chunk_store_fold_count {α : Type} (env : Env)
    (hconf : env.openai_configured = true) (hT : total_embedder env)
    (t l : String) (R : α) :
    ∀ (cs : List (String × String)) (n : ℕ) (st : CState α),
      (chunk_store_fold env t l R (n, st) cs).1 =
        n + (cs.filter substantial).length := by
  intro cs
  induction cs with
  | nil => intro n st; rfl
  | cons ch rest ih =>
    intro n st
    by_cases hs : substantial ch = true
    · obtain ⟨v, hv, hcache⟩ := cache_analysis_result_total env hconf hT st ch.2
        t l R ch.1
      have hb : (cache_analysis_result env st ch.2 t l R ch.1).1 = true := by
        rw [hcache]
      rw [chunk_store_fold_cons_sub env t l R n st ch rest hs, hb]
      have hrec := ih (n + 1) (cache_analysis_result env st ch.2 t l R ch.1).2
      rw [show ((if (true : Bool) then n + 1 else n),
          (cache_analysis_result env st ch.2 t l R ch.1).2) =
          ((n + 1), (cache_analysis_result env st ch.2 t l R ch.1).2) from rfl]
      rw [hrec, List.filter_cons_of_pos (by simpa using hs), List.length_cons]
      omega
    · have hs' : substantial ch = false := bool_not_true hs
      rw [chunk_store_fold_cons_skip env t l R n st ch rest hs', ih n st,
        List.filter_cons_of_neg hs]

theorem chunk_store_fold_get {α : Type} (env : Env) (t l : String) (R : α) :
    ∀ (cs : List (String × String)) (n : ℕ) (st : CState α) (k : CKey),
      get_json (chunk_store_fold env t l R (n, st) cs).2 k = get_json st k ∨
      ∃ e : CacheEntry α,
        get_json (chunk_store_fold env t l R (n, st) cs).2 k = some e ∧
        e.analysis_results = R := by
  intro cs
  induction cs with
  | nil => intro n st k; exact Or.inl rfl
  | cons ch rest ih =>
    intro n st k
    by_cases hs : substantial ch = true
    · rw [chunk_store_fold_cons_sub env t l R n st ch rest hs]
      rcases ih (if (cache_analysis_result env st ch.2 t l R ch.1).1 then n + 1 else n)
        (cache_analysis_result env st ch.2 t l R ch.1).2 k with h1 | h2
      · rw [h1]
        exact cache_result_get env st ch.2 t l R ch.1 k
      · exact Or.inr h2
    · rw [chunk_store_fold_cons_skip env t l R n st ch rest (bool_not_true hs)]
      exact ih n st k

theorem chunk_store_fold_get_other {α : Type} (env : Env) (t l : String) (R : α) :
    ∀ (cs : List (String × String)) (n : ℕ) (st : CState α) (k : CKey), k.1 ≠ t →
      get_json (chunk_store_fold env t l R (n, st) cs).2 k = get_json st k := by
  intro cs
  induction cs with
  | nil => intro n st k _; rfl
  | cons ch rest ih =>
    intro n st k hk
    by_cases hs : substantial ch = true
    · rw [chunk_store_fold_cons_sub env t l R n st ch rest hs]
      rw [ih (if (cache_analysis_result env st ch.2 t l R ch.1).1 then n + 1 else n)
        (cache_analysis_result env st ch.2 t l R ch.1).2 k hk]
      exact cache_result_get_other env st ch.2 t l R ch.1 k (Or.inl hk)
    · rw [chunk_store_fold_cons_skip env t l R n st ch rest (bool_not_true hs)]
      exact ih n st k hk

theorem chunk_store_fold_est {α : Type} (env : Env)
    (hconf : env.openai_configured = true) (hT : total_embedder env)
    (t l : String) (R : α) :
    ∀ (cs : List (String × String)) (n : ℕ) (st : CState α) (ch : String × String),
      ch ∈ cs → substantial ch = true →
      ∃ e : CacheEntry α,
        get_json (chunk_store_fold env t l R (n, st) cs).2
          (t, l, generate_content_hash env ch.2 t) = some e ∧
        e.analysis_results = R := by
  intro cs
  induction cs with
  | nil => intro n st ch hm; cases hm
  | cons ch0 rest ih =>
    intro n st ch hm hsub
    rcases List.mem_cons.mp hm with rfl | hm'
    · rw [chunk_store_fold_cons_sub env t l R n st ch rest hsub]
      rcases chunk_store_fold_get env t l R rest
        (if (cache_analysis_result env st ch.2 t l R ch.1).1 then n + 1 else n)
        (cache_analysis_result env st ch.2 t l R ch.1).2
        (t, l, generate_content_hash env ch.2 t) with h1 | h2
      · rw [h1]
        exact cache_result_get_self env st ch.2 t l R ch.1 hconf hT
      · exact h2
    · by_cases hs0 : substantial ch0 = true
      · rw [chunk_store_fold_cons_sub env t l R n st ch0 rest hs0]
        exact ih _ _ ch hm' hsub
      · rw [chunk_store_fold_cons_skip env t l R n st ch0 rest (bool_not_true hs0)]
        exact ih n st ch hm' hsub

/-! ### Lemmas about the outer per-type loop, and claim C8 -/

theorem type_store_fold_cons_in {α : Type} (env : Env) (content language : String)
    (chunks : List (String × String)) (n : ℕ) (st : CState α) (t : String) (R : α)
    (rest : List (String × α)) (ht : t ∈ cacheable_types) :
    type_store_fold env content language chunks (n, st) ((t, R) :: rest) =
      type_store_fold env content language chunks
        (chunk_store_fold env t language R
          ((if (cache_analysis_result env st content t language R "file").1 then
              n + 1 else n),
           (cache_analysis_result env st content t language R "file").2) chunks)
        rest := by
  simp only [type_store_fold]
  rw [if_pos ht]

theorem type_store_fold_cons_in_success {α : Type} (env : Env)
    (content language : String) (chunks : List (String × String)) (n : ℕ)
    (st : CState α) (t : String) (R : α) (rest : List (String × α))
    (ht : t ∈ cacheable_types)
    (hb : (cache_analysis_result env st content t language R "file").1 = true) :
    type_store_fold env content language chunks (n, st) ((t, R) :: rest) =
      type_store_fold env content language chunks
        (chunk_store_fold env t language R
          (n + 1, (cache_analysis_result env st content t language R "file").2)
          chunks) rest := by
  rw [type_store_fold_cons_in env content language chunks n st t R rest ht, hb]
  rfl

theorem type_store_fold_cons_skip {α : Type} (env : Env) (content language : String)
    (chunks : List (String × String)) (n : ℕ) (st : CState α) (t : String) (R : α)
    (rest : List (String × α)) (ht : t ∉ cacheable_types) :
    type_store_fold env content language chunks (n, st) ((t, R) :: rest) =
      type_store_fold env content language chunks (n, st) rest := by
  simp only [type_store_fold]
  rw [if_neg ht]

theorem type_store_fold_count {α : Type} (env : Env)
    (hconf : env.openai_configured = true) (hT : total_embedder env)
    (content language : String) (chunks : List (String × String)) :
    ∀ (rs : List (String × α)) (n : ℕ) (st : CState α),
      (type_store_fold env content language chunks (n, st) rs).1 =
        n + (rs.map (type_weight ((chunks.filter substantial).length))).sum := by
  intro rs
  induction rs with
  | nil => intro n st; simp [type_store_fold]
  | cons tr rest ih =>
    intro n st
    obtain ⟨t, R⟩ := tr
    by_cases ht : t ∈ cacheable_types
    · obtain ⟨v, hv, hcache⟩ := cache_analysis_result_total env hconf hT st content
        t language R "file"
      have hb : (cache_analysis_result env st content t language R "file").1 = true := by
        rw [hcache]
      rw [type_store_fold_cons_in_success env content language chunks n st t R rest
        ht hb]
      obtain ⟨m, st2, hpair⟩ : ∃ (m : ℕ) (st2 : CState α),
          chunk_store_fold env t language R
            (n + 1, (cache_analysis_result env st content t language R "file").2)
            chunks = (m, st2) := ⟨_, _, rfl⟩
      rw [hpair, ih m st2]
      have hm : m = n + 1 + (chunks.filter substantial).length := by
        have hcnt := chunk_store_fold_count env hconf hT t language R chunks (n + 1)
          (cache_analysis_result env st content t language R "file").2
        rw [hpair] at hcnt
        exact hcnt
      rw [hm, List.map_cons, List.sum_cons]
      have hw : type_weight ((chunks.filter substantial).length) (t, R) =
          1 + (chunks.filter substantial).length := by
        unfold type_weight
        rw [if_pos ht]
      rw [hw]
      omega
    · rw [type_store_fold_cons_skip env content language chunks n st t R rest ht,
        ih n st, List.map_cons, List.sum_cons]
      have hw : type_weight ((chunks.filter substantial).length) (t, R) = 0 := by
        unfold type_weight
        rw [if_neg ht]
      rw [hw]
      omega

theorem type_store_fold_get_other {α : Type} (env : Env) (content language : String)
    (chunks : List (String × String)) :
    ∀ (rs : List (String × α)) (n : ℕ) (st : CState α) (k : CKey),
      k.1 ∉ rs.map Prod.fst →
      get_json (type_store_fold env content language chunks (n, st) rs).2 k =
        get_json st k := by
  intro rs
  induction rs with
  | nil => intro n st k _; rfl
  | cons tr rest ih =>
    intro n st k hk
    obtain ⟨t, R⟩ := tr
    have hk1 : k.1 ≠ t := by
      intro hc
      exact hk (by rw [List.map_cons, hc]; exact List.mem_cons_self t _)
    have hk2 : k.1 ∉ rest.map Prod.fst := by
      intro hc
      exact hk (by rw [List.map_cons]; exact List.mem_cons_of_mem t hc)
    by_cases ht : t ∈ cacheable_types
    · rw [type_store_fold_cons_in env content language chunks n st t R rest ht]
      obtain ⟨m, st2, hpair⟩ : ∃ (m : ℕ) (st2 : CState α),
          chunk_store_fold env t language R
            ((if (cache_analysis_result env st content t language R "file").1 then
                n + 1 else n),
             (cache_analysis_result env st content t language R "file").2) chunks =
            (m, st2) := ⟨_, _, rfl⟩
      rw [hpair, ih m st2 k hk2]
      have h1 := chunk_store_fold_get_other env t language R chunks
        (if (cache_analysis_result env st content t language R "file").1 then
          n + 1 else n)
        (cache_analysis_result env st content t language R "file").2 k hk1
      rw [hpair] at h1
      rw [show get_json st2 k =
          get_json (m, st2).2 k from rfl, h1]
      exact cache_result_get_other env st content t language R "file" k (Or.inl hk1)
    · rw [type_store_fold_cons_skip env content language chunks n st t R rest ht]
      exact ih n st k hk2

theorem type_store_fold_est {α : Type} (env : Env)
    (hconf : env.openai_configured = true) (hT : total_embedder env)
    (content language : String) (chunks : List (String × String)) :
    ∀ (rs : List (String × α)) (n : ℕ) (st : CState α) (t : String) (R : α),
      (t, R) ∈ rs → t ∈ cacheable_types → (rs.map Prod.fst).Nodup →
      (∃ e : CacheEntry α,
        get_json (type_store_fold env content language chunks (n, st) rs).2
          (t, language, generate_content_hash env content t) = some e ∧
        e.analysis_results = R) ∧
      (∀ ch ∈ chunks, substantial ch = true →
        ∃ e : CacheEntry α,
          get_json (type_store_fold env content language chunks (n, st) rs).2
            (t, language, generate_content_hash env ch.2 t) = some e ∧
          e.analysis_results = R) := by
  intro rs
  induction rs with
  | nil => intro n st t R hm; cases hm
  | cons tr rest ih =>
    intro n st t R hm ht hnd
    rcases List.mem_cons.mp hm with heq | hm'
    · subst heq
      obtain ⟨v, hv, hcache⟩ := cache_analysis_result_total env hconf hT st content
        t language R "file"
      have hb : (cache_analysis_result env st content t language R "file").1 = true := by
        rw [hcache]
      rw [type_store_fold_cons_in_success env content language chunks n st t R rest
        ht hb]
      obtain ⟨m, st2, hpair⟩ : ∃ (m : ℕ) (st2 : CState α),
          chunk_store_fold env t language R
            (n + 1, (cache_analysis_result env st content t language R "file").2)
            chunks = (m, st2) := ⟨_, _, rfl⟩
      rw [hpair]
      have hknotin : t ∉ rest.map Prod.fst := by
        rw [List.map_cons] at hnd
        exact (List.nodup_cons.mp hnd).1
      constructor
      · rw [type_store_fold_get_other env content language chunks rest m st2
          (t, language, generate_content_hash env content t) hknotin]
        rcases chunk_store_fold_get env t language R chunks (n + 1)
          (cache_analysis_result env st content t language R "file").2
          (t, language, generate_content_hash env content t) with h1 | h2
        · rw [hpair] at h1
          rw [show get_json st2 (t, language, generate_content_hash env content t) =
            get_json (m, st2).2 (t, language, generate_content_hash env content t)
            from rfl, h1]
          exact cache_result_get_self env st content t language R "file" hconf hT
        · rw [hpair] at h2
          exact h2
      · intro ch hch hsub
        rw [type_store_fold_get_other env content language chunks rest m st2
          (t, language, generate_content_hash env ch.2 t) hknotin]
        have hest := chunk_store_fold_est env hconf hT t language R chunks (n + 1)
          (cache_analysis_result env st content t language R "file").2 ch hch hsub
        rw [hpair] at hest
        exact hest
    · have hnd' : (rest.map Prod.fst).Nodup := by
        rw [List.map_cons] at hnd
        exact (List.nodup_cons.mp hnd).2
      obtain ⟨t0, R0⟩ := tr
      by_cases ht0 : t0 ∈ cacheable_types
      · rw [type_store_fold_cons_in env content language chunks n st t0 R0 rest ht0]
        obtain ⟨m, st2, hpair⟩ : ∃ (m : ℕ) (st2 : CState α),
            chunk_store_fold env t0 language R0
              ((if (cache_analysis_result env st content t0 language R0 "file").1 then
                  n + 1 else n),
               (cache_analysis_result env st content t0 language R0 "file").2)
              chunks = (m, st2) := ⟨_, _, rfl⟩
        rw [hpair]
        exact ih m st2 t R hm' ht hnd'
      · rw [type_store_fold_cons_skip env content language chunks n st t0 R0 rest ht0]
        exact ih n st t R hm' ht hnd'

/-- C8 counterexample: the provider works and `analysis_results` holds the
single type `"lint"`; the claim says a whole-file entry is stored for it,
but `cache_file_analysis` filters on the fixed list
`["style", "bug", "security", "performance"]`, stores nothing, reports
`0` cached writes, and leaves the store empty. -/
theorem C8_counterexample :
    cache_file_analysis envW ([] : CState ℕ) "f" "x" "python" [("lint", 5)] =
      ((0, 1), []) ∧ "lint" ∉ cacheable_types :=
  ⟨by decide, by decide⟩

/-- C8 (amended): for every analysis type present as a key of
`results_by_analysis_type` THAT IS one of `style`, `bug`, `security`,
`performance` (other types are skipped entirely), when the provider is
configured and always embeds to a non-empty vector and the per-type keys
are distinct, `cache_file_analysis` stores a whole-file entry for that
type, plus one entry per extracted chunk whose trimmed length exceeds 50
characters, reusing that type's single payload for every one of these
entries; the reported `cached_chunks` counts one write per cacheable type
plus one per substantial chunk for it, and `total_chunks` is the number of
chunks times the number of types. -/
theorem C8_file_and_chunks_amended {α : Type} (env : Env) (s : CState α)
    (file_path content language : String) (rs : List (String × α))
    (hconf : env.openai_configured = true) (hT : total_embedder env)
    (hnd : (rs.map Prod.fst).Nodup) :
    (cache_file_analysis env s file_path content language rs).1.1 =
      (rs.map (type_weight
        (((extract_code_chunks content language).filter substantial).length))).sum ∧
    (cache_file_analysis env s file_path content language rs).1.2 =
      (extract_code_chunks content language).length * rs.length ∧
    ∀ (t : String) (R : α), (t, R) ∈ rs → t ∈ cacheable_types →
      (∃ e : CacheEntry α,
        get_json (cache_file_analysis env s file_path content language rs).2
          (t, language, generate_content_hash env content t) = some e ∧
        e.analysis_results = R) ∧
      (∀ ch ∈ extract_code_chunks content language, substantial ch = true →
        ∃ e : CacheEntry α,
          get_json (cache_file_analysis env s file_path content language rs).2
            (t, language, generate_content_hash env ch.2 t) = some e ∧
          e.analysis_results = R) := by
  have hunfold : cache_file_analysis env s file_path content language rs =
      (((type_store_fold env content language (extract_code_chunks content language)
          (0, s) rs).1,
        (extract_code_chunks content language).length * rs.length),
       (type_store_fold env content language (extract_code_chunks content language)
          (0, s) rs).2) := by
    unfold cache_file_analysis
    rw [hconf, if_pos rfl]
  rw [hunfold]
  refine ⟨?_, rfl, ?_⟩
  · have hcnt := type_store_fold_count env hconf hT content language
      (extract_code_chunks content language) rs 0 s
    rw [hcnt]
    omega
  · intro t R hm ht
    exact type_store_fold_est env hconf hT content language
      (extract_code_chunks content language) rs 0 s t R hm ht hnd

/-- C8 witness: a single `bug` result over a chunk-free one-character file. -/
theorem C8_witness :
    (cache_file_analysis envW ([] : CState ℕ) "f" "x" "python" [("bug", 5)]).1.1 =
      ([(("bug" : String), (5 : ℕ))].map (type_weight
        (((extract_code_chunks "x" "python").filter substantial).length))).sum ∧
    (cache_file_analysis envW ([] : CState ℕ) "f" "x" "python" [("bug", 5)]).1.2 =
      (extract_code_chunks "x" "python").length * [(("bug" : String), (5 : ℕ))].length ∧
    ∀ (t : String) (R : ℕ), (t, R) ∈ [(("bug" : String), (5 : ℕ))] →
      t ∈ cacheable_types →
      (∃ e : CacheEntry ℕ,
        get_json (cache_file_analysis envW ([] : CState ℕ) "f" "x" "python"
          [("bug", 5)]).2 (t, "python", generate_content_hash envW "x" t) = some e ∧
        e.analysis_results = R) ∧
      (∀ ch ∈ extract_code_chunks "x" "python", substantial ch = true →
        ∃ e : CacheEntry ℕ,
          get_json (cache_file_analysis envW ([] : CState ℕ) "f" "x" "python"
            [("bug", 5)]).2 (t, "python", generate_content_hash envW ch.2 t) =
            some e ∧
          e.analysis_results = R) :=
  C8_file_and_chunks_amended envW ([] : CState ℕ) "f" "x" "python" [("bug", 5)]
    rfl (fun _ => ⟨[1], rfl, by decide⟩) (by decide)
